import Mathlib

/-!
Verification of the conduwuit timeline service (src/service/rooms/timeline/mod.rs)
and its neighbours (src/service/globals/data.rs, src/service/rooms/state/data.rs,
src/service/rooms/read_receipt/data.rs, src/api/client_server/read_marker.rs)
against the natural-language specification.

The Rust code is shallowly embedded: the persistent key-value tables touched by the
timeline service become fields of an explicit `ServiceState` record, stateful
operations become pure state-passing functions, machine integers become `Nat`
with explicit `% 2 ^ 64` where the source wraps, and fallible code returns
`Except`/`Option`. External collaborators that the spec declares out of scope
(push-rule evaluation, signing, state resolution, the appservice registry) are
passed in as function parameters, never re-derived.
-/

namespace Conduwuit

/-- Bound of a Rust u64 plus one. -/
def U64MOD : Nat := 2 ^ 64

/-- The largest u64 value, used by backfill_pdu as the descending-key base. -/
def U64MAX : Nat := 2 ^ 64 - 1

/-- Modelled from the spec: the two-kind timeline position type `PduCount`
(`Normal(u64)` for live events, `Backfilled(u64)` for prepended history).
The enum and its ordering are defined in the conduit-core crate, which is not
under src/; only the `comparisons` unit test in
src/service/rooms/timeline/mod.rs (lines 1218-1224) exercises it there.
The model follows the spec wording: any Normal position is greater than any
Backfilled position, Normal positions order by the raw counter ascending, and
Backfilled positions order by the raw counter descending. -/
inductive PduCount where
  | normal (n : Nat)
  | backfilled (n : Nat)
deriving DecidableEq, Repr

/-- Modelled from the spec: three-way comparison on `PduCount` encoding the
asymmetric ordering described in section 3 of the spec. -/
def PduCount.cmp : PduCount → PduCount → Ordering
  | PduCount.normal s, PduCount.normal o => compare s o
  | PduCount.backfilled s, PduCount.backfilled o => compare o s
  | PduCount.normal _, PduCount.backfilled _ => Ordering.gt
  | PduCount.backfilled _, PduCount.normal _ => Ordering.lt

/-- Boolean strict-less-than on `PduCount`, the order used by the timeline keys. -/
def PduCount.ltb (a b : PduCount) : Bool :=
  match a.cmp b with
  | Ordering.lt => true
  | _ => false

/-- Boolean less-or-equal on `PduCount`. -/
def PduCount.leb (a b : PduCount) : Bool := !PduCount.ltb b a

/-- Modelled from the spec: `PduCount::min()`, the smallest possible position
(`Backfilled(u64::MAX)`), used by `all_pdus` as the lower iteration bound. -/
def PduCount.minPos : PduCount := PduCount.backfilled U64MAX

theorem pduCount_ltb_iff_cmp (a b : PduCount) :
    PduCount.ltb a b = true ↔ a.cmp b = Ordering.lt := by
  unfold PduCount.ltb
  rcases h : a.cmp b <;> simp

theorem pduCount_cmp_normal_lt_iff (n m : Nat) :
    (PduCount.normal n).cmp (PduCount.normal m) = Ordering.lt ↔ n < m := by
  simp [PduCount.cmp, Nat.compare_eq_lt]

theorem pduCount_cmp_backfilled_lt_iff (n m : Nat) :
    (PduCount.backfilled n).cmp (PduCount.backfilled m) = Ordering.lt ↔ m < n := by
  simp [PduCount.cmp, Nat.compare_eq_lt]

/-- Claim C1: the timeline position ordering is asymmetric across its two kinds.
For every pair of raw counters, a Normal position compares greater than any
Backfilled position; among Normal values the order follows the raw counter
ascending; among Backfilled values the order is reversed, so Backfilled(1)
compares greater than Backfilled(2). The four assertions of the `comparisons`
unit test in src/service/rooms/timeline/mod.rs hold as well. -/
theorem pduCount_ordering_asymmetric :
    (∀ n m : Nat, (PduCount.normal n).cmp (PduCount.backfilled m) = Ordering.gt) ∧
    (∀ n m : Nat, PduCount.ltb (PduCount.normal n) (PduCount.normal m) = true ↔ n < m) ∧
    (∀ n m : Nat, PduCount.ltb (PduCount.backfilled n) (PduCount.backfilled m) = true ↔ m < n) ∧
    (PduCount.backfilled 1).cmp (PduCount.backfilled 2) = Ordering.gt ∧
    PduCount.ltb (PduCount.normal 1) (PduCount.normal 2) = true ∧
    PduCount.ltb (PduCount.backfilled 2) (PduCount.backfilled 1) = true ∧
    (PduCount.normal 1).cmp (PduCount.backfilled 1) = Ordering.gt ∧
    PduCount.ltb (PduCount.backfilled 1) (PduCount.normal 1) = true := by
  refine ⟨fun n m => rfl, fun n m => ?_, fun n m => ?_, by decide, by decide, by decide, rfl, by decide⟩
  · rw [pduCount_ltb_iff_cmp, pduCount_cmp_normal_lt_iff]
  · rw [pduCount_ltb_iff_cmp, pduCount_cmp_backfilled_lt_iff]

/-- Propositional form of the strict position order. -/
def PduCount.ltP : PduCount → PduCount → Prop
  | PduCount.normal s, PduCount.normal o => s < o
  | PduCount.backfilled s, PduCount.backfilled o => o < s
  | PduCount.normal _, PduCount.backfilled _ => False
  | PduCount.backfilled _, PduCount.normal _ => True

theorem pduCount_ltb_iff_ltP (a b : PduCount) : PduCount.ltb a b = true ↔ PduCount.ltP a b := by
  rw [pduCount_ltb_iff_cmp]
  cases a <;> cases b <;> simp [PduCount.cmp, PduCount.ltP, Nat.compare_eq_lt]

theorem pduCount_ltb_irrefl (a : PduCount) : PduCount.ltb a a = false := by
  cases h : PduCount.ltb a a
  · rfl
  · have := (pduCount_ltb_iff_ltP a a).mp h
    cases a <;> simp [PduCount.ltP] at this

theorem pduCount_leb_iff (a b : PduCount) :
    PduCount.leb a b = true ↔ ¬ PduCount.ltP b a := by
  unfold PduCount.leb
  rw [Bool.not_eq_true', Bool.eq_false_iff, Ne, pduCount_ltb_iff_ltP]

theorem pduCount_leb_refl (a : PduCount) : PduCount.leb a a = true := by
  rw [pduCount_leb_iff]
  cases a <;> simp [PduCount.ltP]

theorem pduCount_leb_trans (a b c : PduCount) (hab : PduCount.leb a b = true)
    (hbc : PduCount.leb b c = true) : PduCount.leb a c = true := by
  rw [pduCount_leb_iff] at hab hbc ⊢
  cases a <;> cases b <;> cases c <;> simp [PduCount.ltP] at * <;> omega

theorem pduCount_leb_total (a b : PduCount) :
    (PduCount.leb a b || PduCount.leb b a) = true := by
  rw [Bool.or_eq_true, pduCount_leb_iff, pduCount_leb_iff]
  cases a <;> cases b <;> simp [PduCount.ltP] <;> omega

/-! ## Canonical JSON objects

A canonical JSON object (`CanonicalJsonObject` in the source) is modelled as an
association list from key to value; only string values are distinguished, every
other JSON value is an opaque payload tag. Insertion replaces any earlier entry
for the key, as a map insert does. -/

/-- A canonical JSON value: a string, or an opaque non-string payload. -/
inductive CVal where
  | str (s : String)
  | payload (tag : Nat)
deriving DecidableEq, Repr

/-- A canonical JSON object as an association list. -/
abbrev CJson : Type := List (String × CVal)

/-- Lookup of a key in a canonical JSON object. -/
def CJson.lookup (j : CJson) (k : String) : Option CVal :=
  (List.find? (fun p => decide (p.1 = k)) j).map Prod.snd

/-- Removal of a key (`CanonicalJsonObject::remove`). -/
def CJson.erase (j : CJson) (k : String) : CJson :=
  List.filter (fun p => decide (p.1 ≠ k)) j

/-- Insertion of a key (`CanonicalJsonObject::insert`), replacing any earlier
entry for that key. -/
def CJson.insert (j : CJson) (k : String) (v : CVal) : CJson :=
  (k, v) :: CJson.erase j k

theorem cjson_lookup_insert (j : CJson) (k : String) (v : CVal) :
    CJson.lookup (CJson.insert j k v) k = some v := by
  simp [CJson.lookup, CJson.insert, List.find?]

theorem find_filter_drop_ne (l : List (String × CVal)) (k k2 : String) (h : k2 ≠ k) :
    List.find? (fun p => decide (p.1 = k2)) (List.filter (fun p => decide (p.1 ≠ k)) l)
      = List.find? (fun p => decide (p.1 = k2)) l := by
  induction l with
  | nil => rfl
  | cons p rest ih =>
    by_cases hp : p.1 = k
    · rw [List.filter_cons_of_neg (by simpa using hp)]
      rw [List.find?_cons_of_neg _ (by
        simp only [hp, decide_eq_true_eq]
        exact fun hc => h hc.symm), ih]
    · rw [List.filter_cons_of_pos (by simpa using hp)]
      by_cases hpk2 : p.1 = k2
      · rw [List.find?_cons_of_pos _ (by simpa using hpk2),
          List.find?_cons_of_pos _ (by simpa using hpk2)]
      · rw [List.find?_cons_of_neg _ (by simpa using hpk2),
          List.find?_cons_of_neg _ (by simpa using hpk2), ih]

theorem cjson_lookup_insert_ne (j : CJson) (k k2 : String) (v : CVal) (h : k2 ≠ k) :
    CJson.lookup (CJson.insert j k v) k2 = CJson.lookup j k2 := by
  unfold CJson.lookup CJson.insert CJson.erase
  rw [List.find?_cons_of_neg _ (by
      simp only [decide_eq_true_eq]
      exact fun hc => h hc.symm),
    find_filter_drop_ne j k k2 h]

theorem cjson_lookup_erase_self (j : CJson) (k : String) :
    CJson.lookup (CJson.erase j k) k = none := by
  unfold CJson.lookup CJson.erase
  rw [List.find?_eq_none.mpr]
  · rfl
  · intro p hp
    simp only [List.mem_filter, decide_eq_true_eq] at hp
    simp [hp.2]

/-! ## Room versions and claim C3: the signing pipeline of create_hash_and_sign_event

Lines 717-764 of src/service/rooms/timeline/mod.rs: the event is converted to a
canonical JSON object; for room version 3 and above the top-level `event_id`
entry is removed; an `origin` entry holding the local server name is inserted;
the external signing capability is applied (it can also fail, in which case the
function aborts and nothing is returned or stored — only the success path is
modelled); the freshly derived event id is then re-inserted as a top-level
`event_id` entry of the very object that is returned and later stored. -/

/-- Room version identifiers, as matched by the source; `VCustom` stands for
any other (unstable or unsupported) version string. -/
inductive RoomVersionId where
  | V1 | V2 | V3 | V4 | V5 | V6 | V7 | V8 | V9 | V10 | V11
  | VCustom (s : String)
deriving DecidableEq, Repr

/-- The match on room_version_id at lines 723-729: versions 1 and 2 keep the
top-level event_id entry, every other version removes it before signing. -/
def RoomVersionId.keepsEventIdField : RoomVersionId → Bool
  | RoomVersionId.V1 => true
  | RoomVersionId.V2 => true
  | _ => false

/-- The JSON object handed to the signing capability: lines 723-735 of
src/service/rooms/timeline/mod.rs (event_id removal for versions at least 3,
then origin insertion). -/
def pre_sign_json (pdu_json : CJson) (ver : RoomVersionId) (server_name : String) : CJson :=
  let j := if RoomVersionId.keepsEventIdField ver then pdu_json else CJson.erase pdu_json "event_id"
  CJson.insert j "origin" (CVal.str server_name)

/-- The JSON object returned by create_hash_and_sign_event on the success path:
lines 717-764 of src/service/rooms/timeline/mod.rs. `sign` is the external
hash_and_sign_event capability and `new_event_id` the reference-hash derived
identifier; after signing, the event id is inserted back as a top-level entry. -/
def create_hash_and_sign_json (pdu_json : CJson) (ver : RoomVersionId) (server_name : String)
    (sign : CJson → CJson) (new_event_id : String) : CJson :=
  CJson.insert (sign (pre_sign_json pdu_json ver server_name)) "event_id" (CVal.str new_event_id)

/-- Claim C3 counterexample: for room version 3 the JSON object returned by
create_hash_and_sign_event (and later stored) does contain a top-level
`event_id` entry — it is re-inserted at lines 761-764 after signing — so the
claim that the persisted form for versions at least 3 has no such field is
false at this concrete input (identity signing capability). -/
theorem create_hash_and_sign_keeps_event_id_counterexample :
    ¬ (CJson.lookup
        (create_hash_and_sign_json [("event_id", CVal.str "$old")] RoomVersionId.V3
          "conduit.example" (fun j => j) "$new")
        "event_id" = none) := by
  decide

/-- Claim C3 (amended): for room versions 3 and above the top-level `event_id`
entry is removed from the JSON before hashing and signing (the signed form has
none), but the returned and persisted object re-acquires a top-level `event_id`
holding the freshly derived identifier for every room version; for every room
version the signed and persisted object carries a top-level `origin` entry equal
to the local server name. The signing capability is assumed to leave the
`origin` entry alone (it only adds hashes and signatures). -/
theorem create_hash_and_sign_event_id_origin (pdu_json : CJson) (ver : RoomVersionId)
    (server_name : String) (sign : CJson → CJson) (new_event_id : String)
    (hsign : ∀ j : CJson, CJson.lookup (sign j) "origin" = CJson.lookup j "origin") :
    (RoomVersionId.keepsEventIdField ver = false →
      CJson.lookup (pre_sign_json pdu_json ver server_name) "event_id" = none) ∧
    CJson.lookup (pre_sign_json pdu_json ver server_name) "origin"
      = some (CVal.str server_name) ∧
    CJson.lookup (create_hash_and_sign_json pdu_json ver server_name sign new_event_id)
      "event_id" = some (CVal.str new_event_id) ∧
    CJson.lookup (create_hash_and_sign_json pdu_json ver server_name sign new_event_id)
      "origin" = some (CVal.str server_name) := by
  refine ⟨?_, ?_, ?_, ?_⟩
  · intro hv
    unfold pre_sign_json
    rw [hv]
    simp only [Bool.false_eq_true, if_false]
    rw [cjson_lookup_insert_ne _ _ _ _ (by decide)]
    exact cjson_lookup_erase_self _ _
  · unfold pre_sign_json
    exact cjson_lookup_insert _ _ _
  · unfold create_hash_and_sign_json
    exact cjson_lookup_insert _ _ _
  · unfold create_hash_and_sign_json
    rw [cjson_lookup_insert_ne _ _ _ _ (by decide), hsign]
    unfold pre_sign_json
    exact cjson_lookup_insert _ _ _

/-- Claim C3 witness: the amended statement evaluated at a concrete input with
an identity signing capability and room version 5. -/
theorem create_hash_and_sign_event_id_origin_witness :
    CJson.lookup
        (create_hash_and_sign_json [("event_id", CVal.str "$old"), ("type", CVal.str "m.x")]
          RoomVersionId.V5 "conduit.example" (fun j => j) "$new")
        "event_id" = some (CVal.str "$new") ∧
    CJson.lookup
        (create_hash_and_sign_json [("event_id", CVal.str "$old"), ("type", CVal.str "m.x")]
          RoomVersionId.V5 "conduit.example" (fun j => j) "$new")
        "origin" = some (CVal.str "conduit.example") :=
  ⟨(create_hash_and_sign_event_id_origin [("event_id", CVal.str "$old"), ("type", CVal.str "m.x")]
      RoomVersionId.V5 "conduit.example" (fun j => j) "$new" (fun _ => rfl)).2.2.1,
   (create_hash_and_sign_event_id_origin [("event_id", CVal.str "$old"), ("type", CVal.str "m.x")]
      RoomVersionId.V5 "conduit.example" (fun j => j) "$new" (fun _ => rfl)).2.2.2⟩

/-! ## Events, association-list tables and the service state

The timeline service reads and writes a family of ordered key-value tables.
Each table is modelled as an association list where insertion replaces the
previous entry for the key, matching the map semantics of the storage engine.
-/

/-- Event type tags matched by the timeline service. -/
inductive TimelineEventType where
  | roomCreate
  | roomMember
  | roomMessage
  | roomRedaction
  | roomEncryption
  | spaceChild
  | otherType (s : String)
deriving DecidableEq, Repr

/-- Membership states of an m.room.member event content. -/
inductive MembershipState where
  | ban
  | invite
  | join
  | knock
  | leave
  | otherMembership (s : String)
deriving DecidableEq, Repr

/-- The persisted data unit, with the fields the timeline service reads.
The hash and signature material lives in the canonical JSON form handled by
`create_hash_and_sign_json` and is not repeated here. -/
structure PduEvent where
  event_id : String
  room_id : String
  sender : String
  kind : TimelineEventType
  content : CJson
  state_key : Option String
  prev_events : List String
  depth : Nat
  redacts : Option String
deriving DecidableEq, Repr

/-- Lookup in an association-list table. -/
def alist_get {κ ν : Type} [DecidableEq κ] (m : List (κ × ν)) (k : κ) : Option ν :=
  (List.find? (fun p => decide (p.1 = k)) m).map Prod.snd

/-- Insert into an association-list table, replacing any earlier entry. -/
def alist_insert {κ ν : Type} [DecidableEq κ] (m : List (κ × ν)) (k : κ) (v : ν) :
    List (κ × ν) :=
  (k, v) :: List.filter (fun p => decide (p.1 ≠ k)) m

theorem alist_get_insert_self {κ ν : Type} [DecidableEq κ] (m : List (κ × ν)) (k : κ) (v : ν) :
    alist_get (alist_insert m k v) k = some v := by
  simp [alist_get, alist_insert, List.find?]

theorem alist_get_insert_ne {κ ν : Type} [DecidableEq κ] (m : List (κ × ν)) (k k2 : κ) (v : ν)
    (h : k2 ≠ k) : alist_get (alist_insert m k v) k2 = alist_get m k2 := by
  unfold alist_get alist_insert
  rw [List.find?_cons_of_neg _ (by
    simp only [decide_eq_true_eq]
    exact fun hc => h hc.symm)]
  congr 1
  induction m with
  | nil => rfl
  | cons p rest ih =>
    by_cases hp : p.1 = k
    · rw [List.filter_cons_of_neg (by simpa using hp)]
      rw [ih, List.find?_cons_of_neg _ (by
        simp only [hp, decide_eq_true_eq]
        exact fun hc => h hc.symm)]
    · rw [List.filter_cons_of_pos (by simpa using hp)]
      by_cases hpk2 : p.1 = k2
      · rw [List.find?_cons_of_pos _ (by simpa using hpk2),
          List.find?_cons_of_pos _ (by simpa using hpk2)]
      · rw [List.find?_cons_of_neg _ (by simpa using hpk2),
          List.find?_cons_of_neg _ (by simpa using hpk2), ih]

/-- The state of the tables the timeline service touches. Table-to-field map:
`counter` is the `global/COUNTER` cell of src/service/globals/data.rs;
`timeline` is `pduid_pdu` keyed by (short room id, position);
`eventid_pduid` maps an event id to its position key;
`referenced` is the referenced-events bookkeeping of `pdu_metadata`;
`pduleaves` is `roomid_pduleaves` of src/service/rooms/state/data.rs;
`eventState` is the per-event state snapshot written by `set_event_state`;
`roomState` is `roomid_shortstatehash`;
`privateRead` and `lastPrivateReadUpdate` are the two tables of
src/service/rooms/read_receipt/data.rs;
`notificationCounts` and `highlightCounts` are the per-user counters;
`searchIndex` holds `index_pdu` entries (short room id, position key, body);
`pushJobs` logs `send_pdu_push` dispatches (position key, user, push key);
`relations` logs `add_relation` edges; `threadLog` logs `add_to_thread` calls. -/
structure ServiceState where
  counter : Nat
  timeline : List ((Nat × PduCount) × PduEvent)
  eventid_pduid : List (String × (Nat × PduCount))
  referenced : List (String × String)
  pduleaves : List (String × String)
  eventState : List (String × List Nat)
  roomState : List (String × Nat)
  privateRead : List ((String × String) × Nat)
  lastPrivateReadUpdate : List ((String × String) × Nat)
  notificationCounts : List ((String × String) × Nat)
  highlightCounts : List ((String × String) × Nat)
  searchIndex : List (Nat × (Nat × PduCount) × String)
  pushJobs : List ((Nat × PduCount) × String × String)
  relations : List (PduCount × PduCount)
  threadLog : List (String × String)
deriving DecidableEq, Repr

/-- Modelled from the spec: `next_count` of src/service/globals/data.rs performs
the atomic increment of the global counter (the increment primitive itself
lives in the storage engine, outside src/) and returns the new value; u64
arithmetic wraps. -/
def next_count (st : ServiceState) : ServiceState × Nat :=
  let c := (st.counter + 1) % U64MOD
  ({ st with counter := c }, c)

/-- Modelled from the spec: `mark_as_referenced` of the pdu_metadata service
(not under src/) records every prev event of the pdu as referenced for the
room. -/
def mark_as_referenced (st : ServiceState) (room : String) (event_ids : List String) :
    ServiceState :=
  { st with referenced := st.referenced ++ event_ids.map (fun e => (room, e)) }

/-- `set_forward_extremities` of src/service/rooms/state/data.rs: every
existing `roomid_pduleaves` entry of the room is removed, then one entry per
given event id is inserted. -/
def set_forward_extremities (st : ServiceState) (room : String) (event_ids : List String) :
    ServiceState :=
  { st with pduleaves :=
      List.filter (fun p => decide (p.1 ≠ room)) st.pduleaves
        ++ event_ids.map (fun e => (room, e)) }

/-- `get_forward_extremities` of src/service/rooms/state/data.rs: the
`roomid_pduleaves` entries of the room. -/
def get_forward_extremities (st : ServiceState) (room : String) : List String :=
  (List.filter (fun p => decide (p.1 = room)) st.pduleaves).map Prod.snd

/-- `private_read_set` of src/service/rooms/read_receipt/data.rs: stores the
given count under (room, user) and a freshly allocated global counter value
under the same key in the last-update table. -/
def private_read_set (st : ServiceState) (room user : String) (count : Nat) : ServiceState :=
  let st1 := { st with privateRead := alist_insert st.privateRead (room, user) count }
  let p := next_count st1
  { p.1 with lastPrivateReadUpdate := alist_insert p.1.lastPrivateReadUpdate (room, user) p.2 }

/-- Modelled from the spec: `reset_notification_counts` of the rooms user
service (its data layer is not under src/) resets the notification counters of
the sender for the room. -/
def reset_notification_counts (st : ServiceState) (user room : String) : ServiceState :=
  { st with
    notificationCounts := alist_insert st.notificationCounts (room, user) 0
    highlightCounts := alist_insert st.highlightCounts (room, user) 0 }

/-- Modelled from the spec: the database half of `append_pdu` (timeline data
layer, not under src/) persists the PDU under its position key and records the
event-id-to-position mapping. -/
def db_append_pdu (st : ServiceState) (key : Nat × PduCount) (pdu : PduEvent) : ServiceState :=
  { st with
    timeline := st.timeline ++ [(key, pdu)]
    eventid_pduid := alist_insert st.eventid_pduid pdu.event_id key }

/-- One notification-counter bump, wrapping as u64. -/
def bump_count (m : List ((String × String) × Nat)) (k : String × String) :
    List ((String × String) × Nat) :=
  alist_insert m k (((alist_get m k).getD 0 + 1) % U64MOD)

/-- Modelled from the spec: `increment_notification_counts` (timeline data
layer, not under src/) bumps the notification counter of every notified user
and the highlight counter of every highlighted user. -/
def increment_notification_counts (st : ServiceState) (room : String)
    (notifies highlights : List String) : ServiceState :=
  let st1 := { st with
    notificationCounts :=
      notifies.foldl (fun m u => bump_count m (room, u)) st.notificationCounts }
  { st1 with
    highlightCounts :=
      highlights.foldl (fun m u => bump_count m (room, u)) st1.highlightCounts }

/-- `index_pdu` of the search service (modelled from the spec interface
`index(room_short_id, position, body)`). -/
def index_pdu (st : ServiceState) (sroom : Nat) (key : Nat × PduCount) (body : String) :
    ServiceState :=
  { st with searchIndex := (sroom, key, body) :: st.searchIndex }

/-- `deindex_pdu` of the search service (modelled from the spec interface
`deindex(room_short_id, position, body)`). -/
def deindex_pdu (st : ServiceState) (sroom : Nat) (key : Nat × PduCount) (body : String) :
    ServiceState :=
  { st with searchIndex :=
      st.searchIndex.filter (fun e => decide (e ≠ (sroom, key, body))) }

/-- `get_pdu_count` of the timeline service: the position of the event id, read
off the recorded position key. -/
def get_pdu_count (st : ServiceState) (event_id : String) : Option PduCount :=
  (alist_get st.eventid_pduid event_id).map (fun k => k.2)

/-- `get_pdu_from_id`: the pdu stored under a position key. -/
def get_pdu_from_id (st : ServiceState) (key : Nat × PduCount) : Option PduEvent :=
  alist_get st.timeline key

/-- `get_pdu`: the pdu stored for an event id (the outlier tree of the real
database is not reached by the claims and is not modelled). -/
def get_pdu (st : ServiceState) (event_id : String) : Option PduEvent :=
  match alist_get st.eventid_pduid event_id with
  | none => none
  | some key => get_pdu_from_id st key

/-- `replace_pdu` (lines 200-204 of src/service/rooms/timeline/mod.rs, data
layer modelled from its doc comment): removes the pdu stored under the key and
stores the new one under the same key; no other table changes. -/
def replace_pdu (st : ServiceState) (key : Nat × PduCount) (pdu : PduEvent) : ServiceState :=
  { st with timeline := st.timeline.map (fun e => if e.1 = key then (key, pdu) else e) }

/-! ## Content parsing helpers

These mirror the serde extraction structs of src/service/rooms/timeline/mod.rs
over the canonical JSON content model. -/

/-- The `ExtractBody` deserialization (`body: Option<String>`): a missing body
is `none`, a string body is returned, a non-string body is a parse error. -/
def parse_body (c : CJson) : Except String (Option String) :=
  match CJson.lookup c "body" with
  | none => Except.ok none
  | some (CVal.str s) => Except.ok (some s)
  | some (CVal.payload _) => Except.error "Invalid content in pdu."

/-- The body as read by `redact_pdu`, where a parse failure is silently skipped
(the source wraps the extraction in if-let-Ok followed by if-let-Some). -/
def content_body (c : CJson) : Option String :=
  match CJson.lookup c "body" with
  | some (CVal.str s) => some s
  | _ => none

/-- The `RoomRedactionEventContent` deserialization used for room version 11:
an optional `redacts` string; a non-string value is a parse error. -/
def parse_redacts (c : CJson) : Except String (Option String) :=
  match CJson.lookup c "redacts" with
  | none => Except.ok none
  | some (CVal.str s) => Except.ok (some s)
  | some (CVal.payload _) => Except.error "Invalid content in redaction pdu"

/-- Known membership strings of an m.room.member content. -/
def membership_of_string (s : String) : MembershipState :=
  if s = "ban" then MembershipState.ban
  else if s = "invite" then MembershipState.invite
  else if s = "join" then MembershipState.join
  else if s = "knock" then MembershipState.knock
  else if s = "leave" then MembershipState.leave
  else MembershipState.otherMembership s

/-- The `RoomMemberEventContent` deserialization as far as the guards read it:
the membership field must be present and a string. -/
def parse_membership (c : CJson) : Option MembershipState :=
  match CJson.lookup c "membership" with
  | some (CVal.str s) => some (membership_of_string s)
  | _ => none

/-- The m.relates_to shapes distinguished by the relation bookkeeping of
append_pdu. -/
inductive RelatesTo where
  | reply (event_id : String)
  | threadRel (event_id : String)
  | otherRel
deriving DecidableEq, Repr

/-! ## Push fan-out (lines 306-388 of src/service/rooms/timeline/mod.rs) -/

/-- Push-rule actions as matched by append_pdu: `Action::Notify`,
`Action::SetTweak(Tweak::Highlight(_))`, anything else. -/
inductive PushAction where
  | actNotify
  | actHighlight (value : Bool)
  | actOther
deriving DecidableEq, Repr

/-- The recipients and dispatches computed by the push fan-out loop. -/
structure PushOut where
  notifies : List String
  highlights : List String
  jobs : List (String × String)
deriving DecidableEq, Repr

/-- External collaborators of the append pipeline, passed in rather than
re-derived (spec section 6): the locally-active members of the room, the
push-rule evaluator composed with the per-user ruleset, the push-key registry,
the room version, the redaction authorization check, the room-version-specific
redaction retention rule, and the m.relates_to extraction. -/
structure Externals where
  activeLocalUsers : List String
  actionsOf : String → List PushAction
  keysOf : String → List String
  roomVersion : RoomVersionId
  canRedact : String → Bool
  kept : RoomVersionId → TimelineEventType → String → Bool
  parseRelatesId : CJson → Option String
  parseRelates : CJson → Option RelatesTo

/-- The push-target list (lines 323-337): the locally-active users of the room
plus, for a membership event, the explicit target of the state key when not
already present. -/
def push_target (activeLocal : List String) (pdu : PduEvent) : List String :=
  match pdu.kind, pdu.state_key with
  | TimelineEventType.roomMember, some sk =>
      if sk ∈ activeLocal then activeLocal else activeLocal ++ [sk]
  | _, _ => activeLocal

/-- One iteration of the push loop (lines 339-385): the sender is skipped, every
other target user has the push rules evaluated and one push job dispatched per
push key. -/
def push_step (sender : String) (actionsOf : String → List PushAction)
    (keysOf : String → List String) (acc : PushOut) (user : String) : PushOut :=
  if user = sender then acc
  else
    let notify := (actionsOf user).any (fun a => decide (a = PushAction.actNotify))
    let highlight := (actionsOf user).any (fun a => decide (a = PushAction.actHighlight true))
    { notifies := acc.notifies ++ (if notify then [user] else [])
      highlights := acc.highlights ++ (if highlight then [user] else [])
      jobs := acc.jobs ++ (keysOf user).map (fun k => (user, k)) }

/-- The full push loop over the target list. -/
def compute_push (sender : String) (targets : List String)
    (actionsOf : String → List PushAction) (keysOf : String → List String) : PushOut :=
  targets.foldl (push_step sender actionsOf keysOf) { notifies := [], highlights := [], jobs := [] }

/-! ## Redaction (redact_pdu, lines 1015-1048) -/

/-- Modelled from the spec: `PduEvent::redact` (src/pdu.rs is not under src/)
applies the room-version-specific redaction algorithm, stripping the content
payload down to the keys the algorithm retains for this room version and event
type; the event id and every other identity field are untouched. -/
def pdu_redact (kept : RoomVersionId → TimelineEventType → String → Bool)
    (ver : RoomVersionId) (p : PduEvent) : PduEvent :=
  { p with content := p.content.filter (fun kv => kept ver p.kind kv.1) }

/-- `redact_pdu` (lines 1015-1048 of src/service/rooms/timeline/mod.rs): when
the event id has no recorded position the call is a no-op; otherwise the stored
pdu is fetched (a dangling position key is a database error), its body is
deindexed from the search index when present, the pdu is redacted, and the
result replaces the stored pdu under the same position key. -/
def redact_pdu (kept : RoomVersionId → TimelineEventType → String → Bool)
    (ver : RoomVersionId) (sroom : Nat) (st : ServiceState) (event_id : String) :
    Except String ServiceState :=
  match alist_get st.eventid_pduid event_id with
  | none => Except.ok st
  | some key =>
    match get_pdu_from_id st key with
    | none => Except.error "PDU ID points to invalid PDU."
    | some pdu =>
      let st1 := match content_body pdu.content with
        | some body => deindex_pdu st sroom key body
        | none => st
      Except.ok (replace_pdu st1 key (pdu_redact kept ver pdu))

/-! ## append_pdu (lines 206-590) and append_incoming_pdu (lines 949-986) -/

/-- The value returned by append_pdu together with the recipient sets and push
dispatches computed by the push fan-out. -/
structure AppendOut where
  pdu_id : Nat × PduCount
  notifies : List String
  highlights : List String
  jobs : List (String × String)
deriving DecidableEq, Repr

/-- The type-specific side effects of append_pdu (lines 390-497). The redaction
cascade and the message search indexing are modelled; the space-hierarchy cache
invalidation, the membership-cache update and the administrative command
dispatch act on services outside src/ and leave every modelled table unchanged,
so they are no-ops here. -/
def append_side_effects (ctx : Externals) (st : ServiceState) (sroom : Nat)
    (key : Nat × PduCount) (pdu : PduEvent) : Except String ServiceState :=
  match pdu.kind with
  | TimelineEventType.roomRedaction =>
    match ctx.roomVersion with
    | RoomVersionId.VCustom _ =>
        Except.error "Unexpected or unsupported room version found"
    | RoomVersionId.V11 =>
      match parse_redacts pdu.content with
      | Except.error e => Except.error e
      | Except.ok none => Except.ok st
      | Except.ok (some redact_id) =>
        if ctx.canRedact redact_id then
          redact_pdu ctx.kept ctx.roomVersion sroom st redact_id
        else Except.ok st
    | _ =>
      match pdu.redacts with
      | none => Except.ok st
      | some redact_id =>
        if ctx.canRedact redact_id then
          redact_pdu ctx.kept ctx.roomVersion sroom st redact_id
        else Except.ok st
  | TimelineEventType.roomMessage =>
    match parse_body pdu.content with
    | Except.error e => Except.error e
    | Except.ok none => Except.ok st
    | Except.ok (some body) => Except.ok (index_pdu st sroom key body)
  | _ => Except.ok st

/-- One `add_relation` attempt: the edge is registered only when the target
event id has a known position. -/
def add_relation_maybe (st : ServiceState) (fromCount : PduCount) (target : String) :
    ServiceState :=
  match get_pdu_count st target with
  | some related => { st with relations := (fromCount, related) :: st.relations }
  | none => st

/-- The relation and thread bookkeeping of append_pdu (lines 499-530): a
top-level m.relates_to event id adds a relation edge keyed by the target
position when the target is known; a reply adds the same edge through the
in_reply_to field; a thread relation records thread participation. -/
def append_relations (ctx : Externals) (st : ServiceState) (fromCount : PduCount)
    (pdu : PduEvent) : ServiceState :=
  let st1 := match ctx.parseRelatesId pdu.content with
    | some target => add_relation_maybe st fromCount target
    | none => st
  match ctx.parseRelates pdu.content with
  | some (RelatesTo.reply target) => add_relation_maybe st1 fromCount target
  | some (RelatesTo.threadRel root) =>
      { st1 with threadLog := (root, pdu.event_id) :: st1.threadLog }
  | _ => st1

/-- `append_pdu` (lines 206-590 of src/service/rooms/timeline/mod.rs): marks the
prev events as referenced, replaces the forward extremities with the given
leaves, allocates a counter for the private read receipt of the sender, resets
the notification counters of the sender, allocates the position counter and
persists the pdu under (short room id, Normal(counter)), runs the push fan-out
skipping the sender, bumps the recipient counters, runs the type-specific side
effects and the relation bookkeeping, and returns the position key. The stored
canonical JSON and its unsigned prev-content overlay (lines 229-271) are not
observable through any modelled table and are not tracked; the appservice
fan-out (lines 532-587) dispatches to the external appservice registry and is
likewise outside the model. -/
def append_pdu_core (ctx : Externals) (st : ServiceState) (sroom : Nat) (pdu : PduEvent)
    (leaves : List String) : ServiceState × AppendOut :=
  let stA := mark_as_referenced st pdu.room_id pdu.prev_events
  let stB := set_forward_extremities stA pdu.room_id leaves
  let p1 := next_count stB
  let stC := private_read_set p1.1 pdu.room_id pdu.sender p1.2
  let stD := reset_notification_counts stC pdu.sender pdu.room_id
  let p2 := next_count stD
  let key : Nat × PduCount := (sroom, PduCount.normal p2.2)
  let stE := db_append_pdu p2.1 key pdu
  let targets := push_target ctx.activeLocalUsers pdu
  let po := compute_push pdu.sender targets ctx.actionsOf ctx.keysOf
  let stF := { stE with pushJobs := stE.pushJobs ++ po.jobs.map (fun j => (key, j)) }
  let stG := increment_notification_counts stF pdu.room_id po.notifies po.highlights
  (stG, { pdu_id := key, notifies := po.notifies, highlights := po.highlights, jobs := po.jobs })

/-- `append_pdu` in full: the infallible core above, then the fallible
type-specific side effects, then the relation bookkeeping, returning the
allocated position key. -/
def append_pdu (ctx : Externals) (st : ServiceState) (sroom : Nat) (pdu : PduEvent)
    (pdu_json : CJson) (leaves : List String) : Except String (ServiceState × AppendOut) :=
  let p := append_pdu_core ctx st sroom pdu leaves
  match append_side_effects ctx p.1 sroom p.2.pdu_id pdu with
  | Except.error e => Except.error e
  | Except.ok stH => Except.ok (append_relations ctx stH p.2.pdu_id.2 pdu, p.2)

/-- `set_event_state` (rooms state service): records the resolved state snapshot
of the sending server for the event (the short-state-hash compression is not
under src/, so the snapshot is stored as the given compressed id list). -/
def set_event_state (st : ServiceState) (event_id : String) (state_ids : List Nat) :
    ServiceState :=
  { st with eventState := alist_insert st.eventState event_id state_ids }

/-- `append_incoming_pdu` (lines 949-986 of src/service/rooms/timeline/mod.rs):
the state snapshot from the sending server is recorded first; under soft_fail
the prev events are marked as referenced and the forward extremities are
replaced, but append_pdu is never reached and no position is returned;
otherwise the event goes through the same append_pdu and its position is
returned. -/
def append_incoming_pdu (ctx : Externals) (st : ServiceState) (sroom : Nat) (pdu : PduEvent)
    (pdu_json : CJson) (new_room_leaves : List String) (state_ids : List Nat)
    (soft_fail : Bool) : Except String (ServiceState × Option AppendOut) :=
  let st0 := set_event_state st pdu.event_id state_ids
  if soft_fail then
    let st1 := mark_as_referenced st0 pdu.room_id pdu.prev_events
    let st2 := set_forward_extremities st1 pdu.room_id new_room_leaves
    Except.ok (st2, none)
  else
    match append_pdu ctx st0 sroom pdu pdu_json new_room_leaves with
    | Except.error e => Except.error e
    | Except.ok (st1, out) => Except.ok (st1, some out)

/-! ## Timeline iteration (all_pdus, pdus_after, pdus_until, lines 988-1013) -/

/-- Ascending position order on stored timeline entries. -/
def entryLe (a b : (Nat × PduCount) × PduEvent) : Prop :=
  PduCount.leb a.1.2 b.1.2 = true

/-- Descending position order on stored timeline entries. -/
def entryGe (a b : (Nat × PduCount) × PduEvent) : Prop :=
  PduCount.leb b.1.2 a.1.2 = true

instance : DecidableRel entryLe := fun a b => by
  unfold entryLe
  infer_instance

instance : DecidableRel entryGe := fun a b => by
  unfold entryGe
  infer_instance

instance : IsTotal ((Nat × PduCount) × PduEvent) entryLe :=
  ⟨fun a b => Bool.or_eq_true .. |>.mp (pduCount_leb_total a.1.2 b.1.2)⟩

instance : IsTrans ((Nat × PduCount) × PduEvent) entryLe :=
  ⟨fun a b c hab hbc => pduCount_leb_trans a.1.2 b.1.2 c.1.2 hab hbc⟩

instance : IsTotal ((Nat × PduCount) × PduEvent) entryGe :=
  ⟨fun a b => Bool.or_eq_true .. |>.mp (pduCount_leb_total b.1.2 a.1.2)⟩

instance : IsTrans ((Nat × PduCount) × PduEvent) entryGe :=
  ⟨fun a b c hab hbc => pduCount_leb_trans c.1.2 b.1.2 a.1.2 hbc hab⟩

/-- `pdus_after`: every stored pdu of the room with a position strictly greater
than `fromC`, in chronological (ascending position) order. -/
def pdus_after (st : ServiceState) (sroom : Nat) (fromC : PduCount) :
    List ((Nat × PduCount) × PduEvent) :=
  List.insertionSort entryLe
    (st.timeline.filter (fun e => decide (e.1.1 = sroom) && PduCount.ltb fromC e.1.2))

/-- `pdus_until`: every stored pdu of the room with a position strictly smaller
than `untilC`, in reverse-chronological (descending position) order. -/
def pdus_until (st : ServiceState) (sroom : Nat) (untilC : PduCount) :
    List ((Nat × PduCount) × PduEvent) :=
  List.insertionSort entryGe
    (st.timeline.filter (fun e => decide (e.1.1 = sroom) && PduCount.ltb e.1.2 untilC))

/-- `all_pdus`: `pdus_after` from the minimum position. -/
def all_pdus (st : ServiceState) (sroom : Nat) : List ((Nat × PduCount) × PduEvent) :=
  pdus_after st sroom PduCount.minPos

/-! ## Claim C2: backfill_if_required (lines 1050-1138) -/

/-- The observable outcome of the decision made at lines 1052-1060: either the
early no-op return, or falling through to contact candidate servers; an empty
room trips the expect in the source and is modelled as its own outcome. -/
inductive BackfillDecision where
  | noBackfill
  | contactServers
  | emptyRoom
deriving DecidableEq, Repr

/-- The decision prefix of `backfill_if_required`: the first pdu of the room is
the first element yielded by all_pdus; when its position is strictly smaller
than the requested cutoff the function returns without contacting anyone,
otherwise it goes on to assemble candidate servers. -/
def backfill_if_required (st : ServiceState) (sroom : Nat) (fromC : PduCount) :
    BackfillDecision :=
  match (all_pdus st sroom).head? with
  | none => BackfillDecision.emptyRoom
  | some fp =>
    if PduCount.ltb fp.1.2 fromC then BackfillDecision.noBackfill
    else BackfillDecision.contactServers

/-- A concrete room whose single stored event sits at position Normal(1). -/
def pduA : PduEvent :=
  { event_id := "$a"
    room_id := "!r"
    sender := "@u:s"
    kind := TimelineEventType.roomMessage
    content := [("body", CVal.str "hi")]
    state_key := none
    prev_events := []
    depth := 1
    redacts := none }

/-- A service state holding only `pduA` at position (1, Normal(1)). -/
def stOne : ServiceState :=
  { counter := 5
    timeline := [((1, PduCount.normal 1), pduA)]
    eventid_pduid := [("$a", (1, PduCount.normal 1))]
    referenced := []
    pduleaves := []
    eventState := []
    roomState := []
    privateRead := []
    lastPrivateReadUpdate := []
    notificationCounts := []
    highlightCounts := []
    searchIndex := []
    pushJobs := []
    relations := []
    threadLog := [] }

/-- Claim C2 counterexample: with the oldest stored position Normal(1) and the
cutoff Normal(5), the oldest position is NOT greater than or equal to the
cutoff, yet backfill_if_required is a no-op — the code no-ops exactly when the
oldest position is strictly below the cutoff, the opposite of the claimed
threshold. -/
theorem backfill_if_required_threshold_counterexample :
    ¬ (backfill_if_required stOne 1 (PduCount.normal 5) = BackfillDecision.noBackfill
        ↔ PduCount.leb (PduCount.normal 5) (PduCount.normal 1) = true) := by
  decide

/-- Claim C2 (amended): backfill_if_required is a no-op (no federation request,
Ok return) exactly when the position of the oldest stored event of the room is
strictly SMALLER than the requested cutoff (events older than the cutoff are
still stored, so no gap); when the oldest position is greater than or equal to
the cutoff it proceeds to contact candidate servers. The head element of
all_pdus is indeed the oldest: every stored position of the room is greater
than or equal to it. -/
theorem backfill_if_required_no_op_iff (st : ServiceState) (sroom : Nat) (fromC : PduCount)
    (fp : (Nat × PduCount) × PduEvent) (h : (all_pdus st sroom).head? = some fp) :
    (backfill_if_required st sroom fromC = BackfillDecision.noBackfill
      ↔ PduCount.ltb fp.1.2 fromC = true) ∧
    (backfill_if_required st sroom fromC = BackfillDecision.contactServers
      ↔ PduCount.leb fromC fp.1.2 = true) ∧
    (∀ e ∈ all_pdus st sroom, PduCount.leb fp.1.2 e.1.2 = true) := by
  have hsorted : List.Pairwise entryLe (all_pdus st sroom) :=
    List.sorted_insertionSort entryLe _
  refine ⟨?_, ?_, ?_⟩
  · unfold backfill_if_required
    rw [h]
    by_cases hlt : PduCount.ltb fp.1.2 fromC = true
    · simp [hlt]
    · simp [Bool.not_eq_true] at hlt
      simp [hlt]
  · unfold backfill_if_required
    rw [h]
    by_cases hlt : PduCount.ltb fp.1.2 fromC = true
    · have : PduCount.leb fromC fp.1.2 = false := by
        unfold PduCount.leb
        simp [hlt]
      simp [hlt, this]
    · simp [Bool.not_eq_true] at hlt
      have : PduCount.leb fromC fp.1.2 = true := by
        unfold PduCount.leb
        simp [hlt]
      simp [hlt, this]
  · intro e he
    rcases hl : all_pdus st sroom with _ | ⟨fp2, rest⟩
    · rw [hl] at he
      simp at he
    · rw [hl] at h he hsorted
      simp only [List.head?_cons, Option.some.injEq] at h
      subst h
      rw [List.mem_cons] at he
      rcases he with he | he
      · rw [he]
        exact pduCount_leb_refl _
      · exact (List.pairwise_cons.mp hsorted).1 e he

/-- Claim C2 witness: the amended statement evaluated on the concrete one-event
room, cutoff Normal(5). -/
theorem backfill_if_required_no_op_iff_witness :
    (backfill_if_required stOne 1 (PduCount.normal 5) = BackfillDecision.noBackfill
      ↔ PduCount.ltb (PduCount.normal 1) (PduCount.normal 5) = true) ∧
    (backfill_if_required stOne 1 (PduCount.normal 5) = BackfillDecision.contactServers
      ↔ PduCount.leb (PduCount.normal 5) (PduCount.normal 1) = true) ∧
    (∀ e ∈ all_pdus stOne 1, PduCount.leb (PduCount.normal 1) e.1.2 = true) :=
  backfill_if_required_no_op_iff stOne 1 (PduCount.normal 5) ((1, PduCount.normal 1), pduA)
    (by decide)

/-! ## Claim C4: the soft-fail branch of append_incoming_pdu -/

theorem get_set_forward_extremities (st : ServiceState) (room : String) (ls : List String) :
    get_forward_extremities (set_forward_extremities st room ls) room = ls := by
  unfold get_forward_extremities set_forward_extremities
  rw [List.filter_append, List.map_append]
  have h1 : List.filter (fun p => decide (p.1 = room))
      (List.filter (fun p => decide (p.1 ≠ room)) st.pduleaves) = [] := by
    rw [List.filter_filter]
    rw [List.filter_eq_nil_iff]
    intro a ha
    simp
  have h2 : List.filter (fun p => decide (p.1 = room))
      (ls.map (fun e => (room, e))) = ls.map (fun e => (room, e)) := by
    rw [List.filter_eq_self]
    intro a ha
    rcases List.mem_map.mp ha with ⟨e, _, rfl⟩
    simp
  rw [h1, h2]
  simp

/-- Claim C4: for every call to append_incoming_pdu with soft_fail set to true,
the prev events of the pdu are marked as referenced and the room forward
extremities are replaced with the given new leaves, but the global position
counter is never advanced, the timeline table is unchanged, the event shows up
in no pdus_after or pdus_until iteration (given it was not already stored), and
the function returns None instead of a position. -/
theorem append_incoming_pdu_soft_fail (ctx : Externals) (st : ServiceState) (sroom : Nat)
    (pdu : PduEvent) (pdu_json : CJson) (new_room_leaves : List String) (state_ids : List Nat)
    (hfresh : ∀ e ∈ st.timeline, e.2.event_id ≠ pdu.event_id) :
    ∃ st2,
      append_incoming_pdu ctx st sroom pdu pdu_json new_room_leaves state_ids true
        = Except.ok (st2, none) ∧
      (∀ e ∈ pdu.prev_events, (pdu.room_id, e) ∈ st2.referenced) ∧
      get_forward_extremities st2 pdu.room_id = new_room_leaves ∧
      st2.counter = st.counter ∧
      st2.timeline = st.timeline ∧
      (∀ fromC e, e ∈ pdus_after st2 sroom fromC → e.2.event_id ≠ pdu.event_id) ∧
      (∀ untilC e, e ∈ pdus_until st2 sroom untilC → e.2.event_id ≠ pdu.event_id) := by
  refine ⟨_, rfl, ?_, ?_, rfl, rfl, ?_, ?_⟩
  · intro e he
    show (pdu.room_id, e) ∈ (set_event_state st pdu.event_id state_ids).referenced
      ++ pdu.prev_events.map (fun x => (pdu.room_id, x))
    exact List.mem_append_right _ (List.mem_map.mpr ⟨e, he, rfl⟩)
  · exact get_set_forward_extremities _ _ _
  · intro fromC e he
    have he2 := (List.perm_insertionSort entryLe _).mem_iff.mp he
    have he3 := (List.mem_filter.mp he2).1
    exact hfresh e he3
  · intro untilC e he
    have he2 := (List.perm_insertionSort entryGe _).mem_iff.mp he
    have he3 := (List.mem_filter.mp he2).1
    exact hfresh e he3

/-- Trivial external collaborators for concrete witnesses. -/
def ctxW : Externals :=
  { activeLocalUsers := []
    actionsOf := fun _ => []
    keysOf := fun _ => []
    roomVersion := RoomVersionId.V10
    canRedact := fun _ => false
    kept := fun _ _ _ => false
    parseRelatesId := fun _ => none
    parseRelates := fun _ => none }

/-- A second concrete event, child of pduA. -/
def pduB : PduEvent :=
  { event_id := "$b"
    room_id := "!r"
    sender := "@u:s"
    kind := TimelineEventType.roomMessage
    content := []
    state_key := none
    prev_events := ["$a"]
    depth := 2
    redacts := none }

/-- Claim C4 witness: the soft-fail statement evaluated on the concrete
one-event room with a fresh incoming event. -/
theorem append_incoming_pdu_soft_fail_witness :
    ∃ st2,
      append_incoming_pdu ctxW stOne 1 pduB [] ["$b"] [7] true = Except.ok (st2, none) ∧
      (∀ e ∈ pduB.prev_events, (pduB.room_id, e) ∈ st2.referenced) ∧
      get_forward_extremities st2 pduB.room_id = ["$b"] ∧
      st2.counter = stOne.counter ∧
      st2.timeline = stOne.timeline ∧
      (∀ fromC e, e ∈ pdus_after st2 1 fromC → e.2.event_id ≠ pduB.event_id) ∧
      (∀ untilC e, e ∈ pdus_until st2 1 untilC → e.2.event_id ≠ pduB.event_id) :=
  append_incoming_pdu_soft_fail ctxW stOne 1 pduB [] ["$b"] [7] (by decide)

/-! ## Claim C8: the sender is never notified of their own event -/

theorem push_foldl_skips_sender (sender : String) (actionsOf : String → List PushAction)
    (keysOf : String → List String) (targets : List String) (acc : PushOut)
    (h1 : sender ∉ acc.notifies) (h2 : sender ∉ acc.highlights)
    (h3 : ∀ k, (sender, k) ∉ acc.jobs) :
    sender ∉ (List.foldl (push_step sender actionsOf keysOf) acc targets).notifies ∧
    sender ∉ (List.foldl (push_step sender actionsOf keysOf) acc targets).highlights ∧
    ∀ k, (sender, k) ∉ (List.foldl (push_step sender actionsOf keysOf) acc targets).jobs := by
  induction targets generalizing acc with
  | nil => exact ⟨h1, h2, h3⟩
  | cons u rest ih =>
    simp only [List.foldl_cons]
    apply ih
    · unfold push_step
      by_cases hu : u = sender
      · rw [if_pos hu]
        exact h1
      · rw [if_neg hu]
        intro hmem
        rcases List.mem_append.mp hmem with hmem | hmem
        · exact h1 hmem
        · rcases ite_eq_or_eq ((actionsOf u).any fun a => decide (a = PushAction.actNotify))
            [u] ([] : List String) with hh | hh <;> rw [hh] at hmem
          · exact hu (List.mem_singleton.mp hmem).symm
          · exact List.not_mem_nil _ hmem
    · unfold push_step
      by_cases hu : u = sender
      · rw [if_pos hu]
        exact h2
      · rw [if_neg hu]
        intro hmem
        rcases List.mem_append.mp hmem with hmem | hmem
        · exact h2 hmem
        · rcases ite_eq_or_eq ((actionsOf u).any fun a => decide (a = PushAction.actHighlight true))
            [u] ([] : List String) with hh | hh <;> rw [hh] at hmem
          · exact hu (List.mem_singleton.mp hmem).symm
          · exact List.not_mem_nil _ hmem
    · unfold push_step
      by_cases hu : u = sender
      · rw [if_pos hu]
        exact h3
      · rw [if_neg hu]
        intro k hmem
        rcases List.mem_append.mp hmem with hmem | hmem
        · exact h3 k hmem
        · rcases List.mem_map.mp hmem with ⟨kk, _, hkk⟩
          exact hu (congrArg Prod.fst hkk)

theorem compute_push_skips_sender (sender : String) (targets : List String)
    (actionsOf : String → List PushAction) (keysOf : String → List String) :
    sender ∉ (compute_push sender targets actionsOf keysOf).notifies ∧
    sender ∉ (compute_push sender targets actionsOf keysOf).highlights ∧
    ∀ k, (sender, k) ∉ (compute_push sender targets actionsOf keysOf).jobs :=
  push_foldl_skips_sender sender actionsOf keysOf targets
    { notifies := [], highlights := [], jobs := [] }
    (List.not_mem_nil _) (List.not_mem_nil _) (fun _ => List.not_mem_nil _)

theorem add_relation_maybe_pushJobs (st : ServiceState) (c : PduCount) (t : String) :
    (add_relation_maybe st c t).pushJobs = st.pushJobs := by
  unfold add_relation_maybe
  cases get_pdu_count st t <;> rfl

theorem append_relations_pushJobs (ctx : Externals) (st : ServiceState) (c : PduCount)
    (p : PduEvent) : (append_relations ctx st c p).pushJobs = st.pushJobs := by
  unfold append_relations
  cases hA : ctx.parseRelatesId p.content with
  | none =>
    cases hB : ctx.parseRelates p.content with
    | none => rfl
    | some r =>
      cases r with
      | reply t => exact add_relation_maybe_pushJobs st c t
      | threadRel root => rfl
      | otherRel => rfl
  | some t0 =>
    cases hB : ctx.parseRelates p.content with
    | none => exact add_relation_maybe_pushJobs st c t0
    | some r =>
      cases r with
      | reply t =>
        rw [add_relation_maybe_pushJobs, add_relation_maybe_pushJobs]
      | threadRel root =>
        show (add_relation_maybe st c t0).pushJobs = st.pushJobs
        exact add_relation_maybe_pushJobs st c t0
      | otherRel => exact add_relation_maybe_pushJobs st c t0

theorem redact_pdu_pushJobs (kept : RoomVersionId → TimelineEventType → String → Bool)
    (ver : RoomVersionId) (sroom : Nat) (st : ServiceState) (eid : String)
    (st1 : ServiceState) (h : redact_pdu kept ver sroom st eid = Except.ok st1) :
    st1.pushJobs = st.pushJobs := by
  unfold redact_pdu at h
  split at h
  · injection h with h
    rw [h]
  · split at h
    · cases h
    · injection h with h
      rw [← h]
      rename_i pdu _
      cases content_body pdu.content <;> rfl

theorem append_side_effects_pushJobs (ctx : Externals) (st : ServiceState) (sroom : Nat)
    (key : Nat × PduCount) (pdu : PduEvent) (stH : ServiceState)
    (h : append_side_effects ctx st sroom key pdu = Except.ok stH) :
    stH.pushJobs = st.pushJobs := by
  unfold append_side_effects at h
  split at h
  · -- m.room.redaction
    split at h
    · cases h
    · -- room version 11
      split at h
      · cases h
      · injection h with h
        rw [h]
      · split at h
        · exact redact_pdu_pushJobs _ _ _ _ _ _ h
        · injection h with h
          rw [h]
    · -- room versions 1 to 10
      split at h
      · injection h with h
        rw [h]
      · split at h
        · exact redact_pdu_pushJobs _ _ _ _ _ _ h
        · injection h with h
          rw [h]
  · -- m.room.message
    split at h
    · cases h
    · injection h with h
      rw [h]
    · injection h with h
      rw [← h]
      rfl
  · -- every other event type
    injection h with h
    rw [h]

theorem append_pdu_core_out (ctx : Externals) (st : ServiceState) (sroom : Nat)
    (pdu : PduEvent) (leaves : List String) :
    (append_pdu_core ctx st sroom pdu leaves).2.notifies
        = (compute_push pdu.sender (push_target ctx.activeLocalUsers pdu)
            ctx.actionsOf ctx.keysOf).notifies ∧
    (append_pdu_core ctx st sroom pdu leaves).2.highlights
        = (compute_push pdu.sender (push_target ctx.activeLocalUsers pdu)
            ctx.actionsOf ctx.keysOf).highlights ∧
    (append_pdu_core ctx st sroom pdu leaves).2.jobs
        = (compute_push pdu.sender (push_target ctx.activeLocalUsers pdu)
            ctx.actionsOf ctx.keysOf).jobs ∧
    (append_pdu_core ctx st sroom pdu leaves).1.pushJobs
        = st.pushJobs ++ ((append_pdu_core ctx st sroom pdu leaves).2.jobs.map
            (fun j => ((append_pdu_core ctx st sroom pdu leaves).2.pdu_id, j))) :=
  ⟨rfl, rfl, rfl, rfl⟩

/-- Claim C8: for every event committed through append_pdu, the sender of the
event is never in the computed notify set or highlight set and no push job is
dispatched to the sender (neither in the returned fan-out output nor in the
push-job table, given the table held no job for the sender beforehand), even
when the sender is a locally-active member or the explicit target of a
membership event. -/
theorem append_pdu_never_notifies_sender (ctx : Externals) (st : ServiceState) (sroom : Nat)
    (pdu : PduEvent) (pdu_json : CJson) (leaves : List String) (st2 : ServiceState)
    (out : AppendOut) (h : append_pdu ctx st sroom pdu pdu_json leaves = Except.ok (st2, out))
    (hclean : ∀ key k, (key, pdu.sender, k) ∉ st.pushJobs) :
    pdu.sender ∉ out.notifies ∧ pdu.sender ∉ out.highlights ∧
    (∀ k, (pdu.sender, k) ∉ out.jobs) ∧
    (∀ key k, (key, pdu.sender, k) ∉ st2.pushJobs) := by
  have hcp := compute_push_skips_sender pdu.sender (push_target ctx.activeLocalUsers pdu)
    ctx.actionsOf ctx.keysOf
  have hcore := append_pdu_core_out ctx st sroom pdu leaves
  simp only [append_pdu] at h
  cases hs : append_side_effects ctx (append_pdu_core ctx st sroom pdu leaves).1 sroom
      (append_pdu_core ctx st sroom pdu leaves).2.pdu_id pdu with
  | error e =>
    rw [hs] at h
    cases h
  | ok stH =>
    rw [hs] at h
    injection h with h
    have hout : out = (append_pdu_core ctx st sroom pdu leaves).2 := (congrArg Prod.snd h).symm
    have hst2 : st2 = append_relations ctx stH
        (append_pdu_core ctx st sroom pdu leaves).2.pdu_id.2 pdu := (congrArg Prod.fst h).symm
    refine ⟨?_, ?_, ?_, ?_⟩
    · rw [hout, hcore.1]
      exact hcp.1
    · rw [hout, hcore.2.1]
      exact hcp.2.1
    · intro k
      rw [hout, hcore.2.2.1]
      exact hcp.2.2 k
    · intro key k hmem
      rw [hst2, append_relations_pushJobs,
        append_side_effects_pushJobs _ _ _ _ _ _ hs, hcore.2.2.2] at hmem
      rcases List.mem_append.mp hmem with hmem | hmem
      · exact hclean key k hmem
      · rcases List.mem_map.mp hmem with ⟨j, hj, hjeq⟩
        have hj2 : j = (pdu.sender, k) := (congrArg Prod.snd hjeq)
        rw [hcore.2.2.1] at hj
        exact hcp.2.2 k (hj2 ▸ hj)

/-- The concrete result of one append_pdu call, used by the claim C8 witness. -/
def appendW : ServiceState × AppendOut :=
  (append_pdu ctxW stOne 1 pduB [] ["$b"]).toOption.getD
    (stOne, { pdu_id := (0, PduCount.normal 0), notifies := [], highlights := [], jobs := [] })

/-- Claim C8 witness: the statement evaluated on the concrete one-event room. -/
theorem append_pdu_never_notifies_sender_witness :
    pduB.sender ∉ appendW.2.notifies ∧ pduB.sender ∉ appendW.2.highlights ∧
    (∀ k, (pduB.sender, k) ∉ appendW.2.jobs) ∧
    (∀ key k, (key, pduB.sender, k) ∉ appendW.1.pushJobs) :=
  append_pdu_never_notifies_sender ctxW stOne 1 pduB [] ["$b"] appendW.1 appendW.2 rfl
    (fun _ _ hmem => List.not_mem_nil _ hmem)

/-! ## Claim C9: the depth computation of create_hash_and_sign_event
(lines 641-647) -/

/-- The largest value of the ruma UInt type (2 ^ 53 - 1), the type of the depth
field; `saturating_add` clamps at this bound. -/
def UINTMAX : Nat := 2 ^ 53 - 1

/-- UInt saturating addition. -/
def uint_saturating_add (a b : Nat) : Nat := min (a + b) UINTMAX

/-- `Iterator::max` over a list of depths. -/
def list_max : List Nat → Option Nat
  | [] => none
  | a :: rest =>
    match list_max rest with
    | none => some a
    | some m => some (max a m)

/-- The depths of the retrievable prev events: line 644 filter-maps each prev
event id through get_pdu, silently skipping ids with no stored pdu. -/
def retrieved_depths (getPdu : String → Option PduEvent) (prevs : List String) : List Nat :=
  prevs.filterMap (fun e => (getPdu e).map (fun p => p.depth))

/-- The depth computation of create_hash_and_sign_event (lines 641-647):
the maximum retrievable prev-event depth, defaulting to 0, saturating-plus 1. -/
def compute_event_depth (getPdu : String → Option PduEvent) (prevs : List String) : Nat :=
  uint_saturating_add ((list_max (retrieved_depths getPdu prevs)).getD 0) 1

/-- A stored event whose depth sits at the UInt bound. -/
def pduMax : PduEvent :=
  { pduA with event_id := "$deep", depth := 2 ^ 53 - 1 }

/-- Claim C9 counterexample: when a retrievable prev event already has the
maximal UInt depth 2 ^ 53 - 1, saturating_add clamps and the computed depth is
NOT 1 plus the maximum prev depth, so the claimed equality fails at this
concrete input (it holds below the saturation bound, and the addition indeed
never wraps). -/
theorem compute_event_depth_saturation_counterexample :
    ¬ (compute_event_depth (fun _ => some pduMax) ["$deep"]
        = 1 + (list_max (retrieved_depths (fun _ => some pduMax) ["$deep"])).getD 0) := by
  decide

/-- Claim C9 (amended): the depth of the new event is the maximum depth among
its retrievable prev events (taken as 0 when there are none) plus 1, saturating
at the UInt bound 2 ^ 53 - 1 instead of wrapping: the claimed equality
depth = 1 + max holds whenever the maximum is below the bound, a room with no
retrievable prev events gets depth 1, and the result never exceeds the bound
(no wrap-around). -/
theorem compute_event_depth_spec (getPdu : String → Option PduEvent) (prevs : List String) :
    compute_event_depth getPdu prevs
      = min ((list_max (retrieved_depths getPdu prevs)).getD 0 + 1) UINTMAX ∧
    ((list_max (retrieved_depths getPdu prevs)).getD 0 < UINTMAX →
      compute_event_depth getPdu prevs
        = 1 + (list_max (retrieved_depths getPdu prevs)).getD 0) ∧
    (retrieved_depths getPdu prevs = [] → compute_event_depth getPdu prevs = 1) ∧
    compute_event_depth getPdu prevs ≤ UINTMAX := by
  refine ⟨rfl, ?_, ?_, Nat.min_le_right _ _⟩
  · intro hlt
    unfold compute_event_depth uint_saturating_add
    omega
  · intro hnil
    unfold compute_event_depth uint_saturating_add
    rw [hnil]
    show min 1 UINTMAX = 1
    decide

/-- Claim C9 witness: with one retrievable prev event of depth 1 the computed
depth is exactly 1 plus the maximum prev depth. -/
theorem compute_event_depth_spec_witness :
    compute_event_depth (fun _ => some pduA) ["$a"]
      = 1 + (list_max (retrieved_depths (fun _ => some pduA) ["$a"])).getD 0 :=
  (compute_event_depth_spec (fun _ => some pduA) ["$a"]).2.1 (by decide)

/-! ## Claim C5: the administrative-room guards of build_and_append_pdu
(lines 779-947) -/

/-- The errors surfaced by the build_and_append_pdu guards. -/
inductive BuildError where
  | forbidden (msg : String)
  | badDatabase (msg : String)
deriving DecidableEq, Repr

/-- Whether a string starts with the @ sigil (starts_with of the source,
expressed over the character list). -/
def starts_with_at_sigil (v : String) : Bool :=
  match v.data with
  | c :: _ => decide (c = '@')
  | [] => false

/-- The guarded membership target (lines 798-801): the state key when it starts
with an @ sigil, the sender otherwise. -/
def member_target (pdu : PduEvent) (sender : String) : String :=
  match pdu.state_key with
  | some v => if starts_with_at_sigil v then v else sender
  | none => sender

/-- The count of lines 816-822 and 841-847: current room members on the local
server, the target excluded. -/
def local_members_excluding (members : List String) (localUser : String → Bool)
    (target : String) : Nat :=
  (members.filter (fun m => localUser m && decide (m ≠ target))).length

/-- The administrative-room guard of build_and_append_pdu (lines 787-860):
inside the admin room, encryption events are rejected; a membership leave (or
ban) whose target is the server service account, or which would drop the local
member count below 2 after excluding the target, is rejected with Forbidden. -/
def admin_room_guard (pdu : PduEvent) (sender room_id : String) (admin_room : Option String)
    (server_user : String) (members : List String) (localUser : String → Bool) :
    Option BuildError :=
  match admin_room with
  | none => none
  | some ar =>
    if ar = room_id then
      match pdu.kind with
      | TimelineEventType.roomEncryption =>
          some (BuildError.forbidden "Encryption is not allowed in the admins room")
      | TimelineEventType.roomMember =>
        match parse_membership pdu.content with
        | none => some (BuildError.badDatabase "Invalid content in pdu")
        | some mem =>
          let leaveCheck : Option BuildError :=
            if mem = MembershipState.leave then
              if member_target pdu sender = server_user then
                some (BuildError.forbidden "Server user cannot leave from admins room.")
              else if local_members_excluding members localUser (member_target pdu sender) < 2 then
                some (BuildError.forbidden "Last admin cannot leave from admins room.")
              else none
            else none
          match leaveCheck with
          | some e => some e
          | none =>
            if mem = MembershipState.ban ∧ pdu.state_key.isSome then
              if member_target pdu sender = server_user then
                some (BuildError.forbidden "Server user cannot be banned in admins room.")
              else if local_members_excluding members localUser (member_target pdu sender) < 2 then
                some (BuildError.forbidden "Last admin cannot be banned in admins room.")
              else none
            else none
      | _ => none
    else none

/-- The pre-append redaction authorization recheck (lines 862-894): for a
redaction event the redacts target (read from the event field up to room
version 10, from the content for version 11 and anything newer) must pass
user_can_redact, else Forbidden. -/
def redaction_guard (pdu : PduEvent) (ver : RoomVersionId) (canRedact : String → Bool) :
    Option BuildError :=
  if pdu.kind = TimelineEventType.roomRedaction then
    match ver with
    | RoomVersionId.V1 | RoomVersionId.V2 | RoomVersionId.V3 | RoomVersionId.V4
    | RoomVersionId.V5 | RoomVersionId.V6 | RoomVersionId.V7 | RoomVersionId.V8
    | RoomVersionId.V9 | RoomVersionId.V10 =>
      match pdu.redacts with
      | none => none
      | some rid =>
        if canRedact rid then none
        else some (BuildError.forbidden "User cannot redact this event.")
    | _ =>
      match parse_redacts pdu.content with
      | Except.error _ => some (BuildError.badDatabase "Invalid content in redaction pdu.")
      | Except.ok none => none
      | Except.ok (some rid) =>
        if canRedact rid then none
        else some (BuildError.forbidden "User cannot redact this event.")
  else none

/-- `build_and_append_pdu` after create_hash_and_sign_event (lines 779-947):
the admin-room guard and the redaction recheck run before any state mutation;
then the post-event state snapshot is recorded (append_to_state, whose state
compressor lives outside src/, is modelled as recording the externally computed
state hash for the event), append_pdu commits the event with itself as the only
new leaf, and the room state pointer is moved afterwards (set_room_state of
src/service/rooms/state/data.rs). The outbound federation dispatch at the end
touches no modelled table. On a guard rejection the returned state is the input
state, untouched. -/
def build_and_append_pdu (ctx : Externals) (st : ServiceState) (sroom : Nat) (pdu : PduEvent)
    (pdu_json : CJson) (sender room_id : String) (admin_room : Option String)
    (server_user : String) (members : List String) (localUser : String → Bool)
    (shash : Nat) : ServiceState × Except BuildError String :=
  match admin_room_guard pdu sender room_id admin_room server_user members localUser with
  | some e => (st, Except.error e)
  | none =>
    match redaction_guard pdu ctx.roomVersion ctx.canRedact with
    | some e => (st, Except.error e)
    | none =>
      let st1 := set_event_state st pdu.event_id [shash]
      match append_pdu ctx st1 sroom pdu pdu_json [pdu.event_id] with
      | Except.error e => (st1, Except.error (BuildError.badDatabase e))
      | Except.ok (st2, _) =>
        ({ st2 with roomState := alist_insert st2.roomState room_id shash },
          Except.ok pdu.event_id)

theorem add_relation_maybe_timeline (st : ServiceState) (c : PduCount) (t : String) :
    (add_relation_maybe st c t).timeline = st.timeline := by
  unfold add_relation_maybe
  cases get_pdu_count st t <;> rfl

theorem append_relations_timeline (ctx : Externals) (st : ServiceState) (c : PduCount)
    (p : PduEvent) : (append_relations ctx st c p).timeline = st.timeline := by
  unfold append_relations
  cases hA : ctx.parseRelatesId p.content with
  | none =>
    cases hB : ctx.parseRelates p.content with
    | none => rfl
    | some r =>
      cases r with
      | reply t => exact add_relation_maybe_timeline st c t
      | threadRel root => rfl
      | otherRel => rfl
  | some t0 =>
    cases hB : ctx.parseRelates p.content with
    | none => exact add_relation_maybe_timeline st c t0
    | some r =>
      cases r with
      | reply t =>
        rw [add_relation_maybe_timeline, add_relation_maybe_timeline]
      | threadRel root =>
        show (add_relation_maybe st c t0).timeline = st.timeline
        exact add_relation_maybe_timeline st c t0
      | otherRel => exact add_relation_maybe_timeline st c t0

theorem admin_room_guard_member_leave (pdu : PduEvent) (sender room_id server_user : String)
    (members : List String) (localUser : String → Bool)
    (hkind : pdu.kind = TimelineEventType.roomMember)
    (hmem : parse_membership pdu.content = some MembershipState.leave) :
    admin_room_guard pdu sender room_id (some room_id) server_user members localUser
      = (if member_target pdu sender = server_user then
          some (BuildError.forbidden "Server user cannot leave from admins room.")
        else if local_members_excluding members localUser (member_target pdu sender) < 2 then
          some (BuildError.forbidden "Last admin cannot leave from admins room.")
        else none) := by
  by_cases h1 : member_target pdu sender = server_user
  · simp [admin_room_guard, hkind, hmem, h1]
  · by_cases h2 : local_members_excluding members localUser (member_target pdu sender) < 2
    · simp [admin_room_guard, hkind, hmem, h1, h2]
    · simp [admin_room_guard, hkind, hmem, h1, h2]

/-- Claim C5: in build_and_append_pdu targeting the administrative control
room, a membership leave whose target is the server service account, or which
would leave fewer than 2 local members after excluding the target, is rejected
with Forbidden before any state mutation (the returned state is exactly the
input state); with exactly 2 local admins an admin leave trips the second guard
(count 1 after exclusion), and with 3 or more local members (count at least 2
after exclusion) the event is appended: the call succeeds and the timeline
gains the event. -/
theorem build_and_append_admin_room_guard (ctx : Externals) (st : ServiceState) (sroom : Nat)
    (pdu : PduEvent) (pdu_json : CJson) (sender room_id server_user : String)
    (members : List String) (localUser : String → Bool) (shash : Nat)
    (hkind : pdu.kind = TimelineEventType.roomMember)
    (hmem : parse_membership pdu.content = some MembershipState.leave) :
    (member_target pdu sender = server_user →
      build_and_append_pdu ctx st sroom pdu pdu_json sender room_id (some room_id)
          server_user members localUser shash
        = (st, Except.error (BuildError.forbidden "Server user cannot leave from admins room."))) ∧
    (member_target pdu sender ≠ server_user →
      local_members_excluding members localUser (member_target pdu sender) < 2 →
      build_and_append_pdu ctx st sroom pdu pdu_json sender room_id (some room_id)
          server_user members localUser shash
        = (st, Except.error (BuildError.forbidden "Last admin cannot leave from admins room."))) ∧
    (member_target pdu sender ≠ server_user →
      2 ≤ local_members_excluding members localUser (member_target pdu sender) →
      ∃ stf, build_and_append_pdu ctx st sroom pdu pdu_json sender room_id (some room_id)
          server_user members localUser shash = (stf, Except.ok pdu.event_id) ∧
        ∃ c2, stf.timeline = st.timeline ++ [((sroom, PduCount.normal c2), pdu)]) := by
  have hguard := admin_room_guard_member_leave pdu sender room_id server_user members
    localUser hkind hmem
  refine ⟨?_, ?_, ?_⟩
  · intro h1
    rw [if_pos h1] at hguard
    simp [build_and_append_pdu, hguard]
  · intro h1 h2
    rw [if_neg h1, if_pos h2] at hguard
    simp [build_and_append_pdu, hguard]
  · intro h1 h2
    rw [if_neg h1, if_neg (Nat.not_lt.mpr h2)] at hguard
    have hred : redaction_guard pdu ctx.roomVersion ctx.canRedact = none := by
      unfold redaction_guard
      rw [if_neg (by simp [hkind])]
    have hse : append_side_effects ctx
        (append_pdu_core ctx (set_event_state st pdu.event_id [shash]) sroom pdu [pdu.event_id]).1
        sroom
        (append_pdu_core ctx (set_event_state st pdu.event_id [shash]) sroom pdu [pdu.event_id]).2.pdu_id
        pdu = Except.ok
        (append_pdu_core ctx (set_event_state st pdu.event_id [shash]) sroom pdu [pdu.event_id]).1 := by
      simp only [append_side_effects, hkind]
    have happ : append_pdu ctx (set_event_state st pdu.event_id [shash]) sroom pdu pdu_json
        [pdu.event_id] = Except.ok
        (append_relations ctx
          (append_pdu_core ctx (set_event_state st pdu.event_id [shash]) sroom pdu [pdu.event_id]).1
          (append_pdu_core ctx (set_event_state st pdu.event_id [shash]) sroom pdu [pdu.event_id]).2.pdu_id.2
          pdu,
        (append_pdu_core ctx (set_event_state st pdu.event_id [shash]) sroom pdu [pdu.event_id]).2) := by
      simp only [append_pdu]
      rw [hse]
    simp only [build_and_append_pdu, hguard, hred, happ]
    refine ⟨_, rfl, (((st.counter + 1) % U64MOD + 1) % U64MOD + 1) % U64MOD, ?_⟩
    rw [append_relations_timeline]
    rfl

/-- The local-membership predicate used by the concrete admin-room witnesses. -/
def localW (u : String) : Bool :=
  decide (u ∈ ["@alice:ours", "@bob:ours", "@carol:ours", "@conduit:ours"])

/-- A leave event by a local admin of the admin room. -/
def pduLeave : PduEvent :=
  { event_id := "$leave"
    room_id := "!admins"
    sender := "@alice:ours"
    kind := TimelineEventType.roomMember
    content := [("membership", CVal.str "leave")]
    state_key := some "@alice:ours"
    prev_events := []
    depth := 5
    redacts := none }

/-- A leave event targeting the server service account. -/
def pduSrvLeave : PduEvent :=
  { pduLeave with event_id := "$srvleave", state_key := some "@conduit:ours" }

/-- Claim C5 witness: with exactly 2 local admins the admin leave is rejected;
after a third admin joins the same leave succeeds and is appended; a leave of
the server service account is rejected outright. Every branch keeps the state
untouched on rejection. -/
theorem build_and_append_admin_room_guard_witness :
    (build_and_append_pdu ctxW stOne 1 pduLeave [] "@alice:ours" "!admins" (some "!admins")
        "@conduit:ours" ["@alice:ours", "@bob:ours"] localW 42
      = (stOne, Except.error (BuildError.forbidden "Last admin cannot leave from admins room."))) ∧
    (∃ stf, build_and_append_pdu ctxW stOne 1 pduLeave [] "@alice:ours" "!admins" (some "!admins")
        "@conduit:ours" ["@alice:ours", "@bob:ours", "@carol:ours"] localW 42
      = (stf, Except.ok pduLeave.event_id) ∧
      ∃ c2, stf.timeline = stOne.timeline ++ [((1, PduCount.normal c2), pduLeave)]) ∧
    (build_and_append_pdu ctxW stOne 1 pduSrvLeave [] "@alice:ours" "!admins" (some "!admins")
        "@conduit:ours" ["@alice:ours", "@bob:ours"] localW 42
      = (stOne, Except.error (BuildError.forbidden "Server user cannot leave from admins room."))) :=
  ⟨(build_and_append_admin_room_guard ctxW stOne 1 pduLeave [] "@alice:ours" "!admins"
      "@conduit:ours" ["@alice:ours", "@bob:ours"] localW 42 rfl rfl).2.1
      (by decide) (by decide),
   (build_and_append_admin_room_guard ctxW stOne 1 pduLeave [] "@alice:ours" "!admins"
      "@conduit:ours" ["@alice:ours", "@bob:ours", "@carol:ours"] localW 42 rfl rfl).2.2
      (by decide) (by decide),
   (build_and_append_admin_room_guard ctxW stOne 1 pduSrvLeave [] "@alice:ours" "!admins"
      "@conduit:ours" ["@alice:ours", "@bob:ours"] localW 42 rfl rfl).1 (by decide)⟩

/-! ## Claim C7: redaction is idempotent and position-preserving -/

theorem filter_idem {α : Type} (p : α → Bool) (l : List α) :
    List.filter p (List.filter p l) = List.filter p l := by
  rw [List.filter_filter]
  exact List.filter_congr (fun a _ => Bool.and_self (p a))

theorem cjson_lookup_filter_key (c : CJson) (q : String → Bool) (k : String) :
    CJson.lookup (List.filter (fun kv => q kv.1) c) k
      = if q k = true then CJson.lookup c k else none := by
  induction c with
  | nil =>
    unfold CJson.lookup
    rw [List.filter_nil]
    by_cases hqk : q k = true
    · rw [if_pos hqk]
    · rw [if_neg hqk]
      rfl
  | cons kv rest ih =>
    by_cases hq : q kv.1 = true
    · rw [List.filter_cons_of_pos (by simpa using hq)]
      by_cases hk : kv.1 = k
      · unfold CJson.lookup
        rw [List.find?_cons_of_pos _ (by simpa using hk),
          if_pos (hk ▸ hq), List.find?_cons_of_pos _ (by simpa using hk)]
      · unfold CJson.lookup at ih ⊢
        rw [List.find?_cons_of_neg _ (by simpa using hk)]
        by_cases hqk : q k = true
        · rw [if_pos hqk] at ih ⊢
          rw [List.find?_cons_of_neg _ (by simpa using hk)]
          exact ih
        · rw [if_neg hqk] at ih ⊢
          exact ih
    · rw [List.filter_cons_of_neg (by simpa using hq)]
      by_cases hk : kv.1 = k
      · rw [ih]
        have hqk : ¬ q k = true := by
          rw [← hk]
          exact hq
        rw [if_neg hqk, if_neg hqk]
      · rw [ih]
        by_cases hqk : q k = true
        · rw [if_pos hqk, if_pos hqk]
          unfold CJson.lookup
          rw [List.find?_cons_of_neg _ (by simpa using hk)]
        · rw [if_neg hqk, if_neg hqk]

theorem content_body_filter (c : CJson) (q : String → Bool) :
    content_body (List.filter (fun kv => q kv.1) c)
      = if q "body" = true then content_body c else none := by
  unfold content_body
  rw [cjson_lookup_filter_key]
  by_cases hq : q "body" = true
  · rw [if_pos hq, if_pos hq]
  · rw [if_neg hq, if_neg hq]

theorem alist_get_map_replace (l : List ((Nat × PduCount) × PduEvent)) (key : Nat × PduCount)
    (v : PduEvent) :
    alist_get (l.map (fun e => if e.1 = key then (key, v) else e)) key
      = (alist_get l key).map (fun _ => v) := by
  induction l with
  | nil => rfl
  | cons e rest ih =>
    by_cases he : e.1 = key
    · rw [List.map_cons, if_pos he]
      unfold alist_get
      rw [List.find?_cons_of_pos _ (by simp), List.find?_cons_of_pos _ (by simpa using he)]
      rfl
    · rw [List.map_cons, if_neg he]
      unfold alist_get at ih ⊢
      rw [List.find?_cons_of_neg _ (by simpa using he),
        List.find?_cons_of_neg _ (by simpa using he)]
      exact ih

theorem map_fst_replace (l : List ((Nat × PduCount) × PduEvent)) (key : Nat × PduCount)
    (v : PduEvent) :
    (l.map (fun e => if e.1 = key then (key, v) else e)).map (fun e => e.1)
      = l.map (fun e => e.1) := by
  rw [List.map_map]
  apply List.map_congr_left
  intro e _
  by_cases he : e.1 = key
  · simp [he]
  · simp [he]

theorem map_replace_idem (l : List ((Nat × PduCount) × PduEvent)) (key : Nat × PduCount)
    (v : PduEvent) :
    ((l.map (fun e => if e.1 = key then (key, v) else e)).map
        (fun e => if e.1 = key then (key, v) else e))
      = l.map (fun e => if e.1 = key then (key, v) else e) := by
  rw [List.map_map]
  apply List.map_congr_left
  intro e _
  by_cases he : e.1 = key
  · simp [he]
  · simp [he]

theorem replace_pdu_idem (s : ServiceState) (key : Nat × PduCount) (v : PduEvent) :
    replace_pdu (replace_pdu s key v) key v = replace_pdu s key v := by
  unfold replace_pdu
  rw [map_replace_idem]

theorem pdu_redact_idem (kept : RoomVersionId → TimelineEventType → String → Bool)
    (ver : RoomVersionId) (p : PduEvent) :
    pdu_redact kept ver (pdu_redact kept ver p) = pdu_redact kept ver p := by
  unfold pdu_redact
  dsimp only
  rw [filter_idem]

/-- Claim C7: redaction via redact_pdu is idempotent and position-preserving:
a second redact_pdu call on the state left by a successful first call returns
that state unchanged (in particular the stored content is the same after one
and after two redactions), the event-id-to-position table is untouched, every
timeline entry keeps its position key, and the redacted event is stored under
its original position key with its original event identifier. -/
theorem redact_pdu_idempotent_position_preserving
    (kept : RoomVersionId → TimelineEventType → String → Bool) (ver : RoomVersionId)
    (sroom : Nat) (st st1 : ServiceState) (eid : String)
    (h : redact_pdu kept ver sroom st eid = Except.ok st1) :
    redact_pdu kept ver sroom st1 eid = Except.ok st1 ∧
    st1.eventid_pduid = st.eventid_pduid ∧
    st1.timeline.map (fun e => e.1) = st.timeline.map (fun e => e.1) ∧
    (∀ key pdu, alist_get st.eventid_pduid eid = some key →
      get_pdu_from_id st key = some pdu →
      get_pdu_from_id st1 key = some (pdu_redact kept ver pdu) ∧
      (pdu_redact kept ver pdu).event_id = pdu.event_id) := by
  unfold redact_pdu at h
  cases hA : alist_get st.eventid_pduid eid with
  | none =>
    rw [hA] at h
    dsimp only at h
    injection h with h
    subst h
    refine ⟨?_, rfl, rfl, ?_⟩
    · unfold redact_pdu
      rw [hA]
    · intro key pdu hk
      cases hk
  | some key =>
    rw [hA] at h
    dsimp only at h
    cases hB : get_pdu_from_id st key with
    | none =>
      rw [hB] at h
      dsimp only at h
      cases h
    | some pdu =>
      rw [hB] at h
      dsimp only at h
      injection h with h
      cases hC : content_body pdu.content with
      | none =>
        rw [hC] at h
        dsimp only at h
        refine ⟨?_, ?_, ?_, ?_⟩
        · unfold redact_pdu
          have e1 : alist_get st1.eventid_pduid eid = some key := by
            rw [← h]
            exact hA
          rw [e1]
          dsimp only
          have e2 : get_pdu_from_id st1 key = some (pdu_redact kept ver pdu) := by
            rw [← h]
            show alist_get (st.timeline.map
              (fun e => if e.1 = key then (key, pdu_redact kept ver pdu) else e)) key = _
            rw [alist_get_map_replace]
            unfold get_pdu_from_id at hB
            rw [hB]
            rfl
          rw [e2]
          dsimp only
          have e3 : content_body (pdu_redact kept ver pdu).content = none := by
            show content_body (List.filter (fun kv => kept ver pdu.kind kv.1) pdu.content) = none
            rw [content_body_filter pdu.content (fun k => kept ver pdu.kind k)]
            by_cases hq : kept ver pdu.kind "body" = true
            · rw [if_pos hq, hC]
            · rw [if_neg hq]
          rw [e3]
          dsimp only
          rw [pdu_redact_idem, ← h, replace_pdu_idem]
        · rw [← h]
          rfl
        · rw [← h]
          exact map_fst_replace _ _ _
        · intro key2 pdu2 hk hp
          injection hk with hk
          subst hk
          rw [hB] at hp
          injection hp with hp
          subst hp
          refine ⟨?_, rfl⟩
          rw [← h]
          show alist_get (st.timeline.map
            (fun e => if e.1 = key then (key, pdu_redact kept ver pdu) else e)) key = _
          rw [alist_get_map_replace]
          unfold get_pdu_from_id at hB
          rw [hB]
          rfl
      | some body =>
        rw [hC] at h
        dsimp only at h
        refine ⟨?_, ?_, ?_, ?_⟩
        · unfold redact_pdu
          have e1 : alist_get st1.eventid_pduid eid = some key := by
            rw [← h]
            exact hA
          rw [e1]
          dsimp only
          have e2 : get_pdu_from_id st1 key = some (pdu_redact kept ver pdu) := by
            rw [← h]
            show alist_get ((deindex_pdu st sroom key body).timeline.map
              (fun e => if e.1 = key then (key, pdu_redact kept ver pdu) else e)) key = _
            rw [alist_get_map_replace]
            unfold get_pdu_from_id at hB
            show ((alist_get st.timeline key).map _) = _
            rw [hB]
            rfl
          rw [e2]
          dsimp only
          rw [pdu_redact_idem]
          have e3 : content_body (pdu_redact kept ver pdu).content
              = if kept ver pdu.kind "body" = true then some body else none := by
            show content_body (List.filter (fun kv => kept ver pdu.kind kv.1) pdu.content) = _
            rw [content_body_filter pdu.content (fun k => kept ver pdu.kind k)]
            by_cases hq : kept ver pdu.kind "body" = true
            · rw [if_pos hq, if_pos hq, hC]
            · rw [if_neg hq, if_neg hq]
          rw [e3]
          by_cases hq : kept ver pdu.kind "body" = true
          · rw [if_pos hq]
            dsimp only
            have e4 : deindex_pdu st1 sroom key body = st1 := by
              rw [← h]
              unfold deindex_pdu replace_pdu
              dsimp only
              rw [filter_idem]
            rw [e4, ← h, replace_pdu_idem]
          · rw [if_neg hq]
            dsimp only
            rw [← h, replace_pdu_idem]
        · rw [← h]
          rfl
        · rw [← h]
          show ((deindex_pdu st sroom key body).timeline.map _).map _ = _
          exact map_fst_replace _ _ _
        · intro key2 pdu2 hk hp
          injection hk with hk
          subst hk
          rw [hB] at hp
          injection hp with hp
          subst hp
          refine ⟨?_, rfl⟩
          rw [← h]
          show alist_get ((deindex_pdu st sroom key body).timeline.map
            (fun e => if e.1 = key then (key, pdu_redact kept ver pdu) else e)) key = _
          rw [alist_get_map_replace]
          unfold get_pdu_from_id at hB
          show ((alist_get st.timeline key).map _) = _
          rw [hB]
          rfl

/-- The one-event room with its message body indexed for search. -/
def stSearch : ServiceState :=
  { stOne with searchIndex := [(1, (1, PduCount.normal 1), "hi")] }

/-- The state after redacting the stored message of `stSearch` under a
redaction rule that strips every content key. -/
def redactW : ServiceState :=
  (redact_pdu (fun _ _ _ => false) RoomVersionId.V10 1 stSearch "$a").toOption.getD stSearch

/-- Claim C7 witness: the statement evaluated on the concrete one-event room
whose message gets fully stripped. -/
theorem redact_pdu_idempotent_position_preserving_witness :
    redact_pdu (fun _ _ _ => false) RoomVersionId.V10 1 redactW "$a" = Except.ok redactW ∧
    redactW.eventid_pduid = stSearch.eventid_pduid ∧
    redactW.timeline.map (fun e => e.1) = stSearch.timeline.map (fun e => e.1) ∧
    (∀ key pdu, alist_get stSearch.eventid_pduid "$a" = some key →
      get_pdu_from_id stSearch key = some pdu →
      get_pdu_from_id redactW key
          = some (pdu_redact (fun _ _ _ => false) RoomVersionId.V10 pdu) ∧
      (pdu_redact (fun _ _ _ => false) RoomVersionId.V10 pdu).event_id = pdu.event_id) :=
  redact_pdu_idempotent_position_preserving (fun _ _ _ => false) RoomVersionId.V10 1
    stSearch redactW "$a" rfl

/-! ## Claim C10: private read receipts reject Backfilled positions
(src/api/client_server/read_marker.rs) -/

/-- Client-API errors of the read-marker routes. -/
inductive ApiError where
  | invalidParam (msg : String)
deriving DecidableEq, Repr

/-- The private_read_receipt branch of set_read_marker_route (lines 39-67 of
src/api/client_server/read_marker.rs): the event must exist as a stored pdu and
must have a recorded position; a Backfilled position is rejected with
InvalidParam before the marker is touched; a Normal position stores the short
event id (get_or_create_shorteventid, passed in as `sid` since the short-id
service is not under src/) through private_read_set. -/
def set_read_marker_private (st : ServiceState) (room user event : String)
    (sid : String → Nat) : ServiceState × Option ApiError :=
  match get_pdu st event with
  | none => (st, some (ApiError.invalidParam "Event does not exist."))
  | some _ =>
    match get_pdu_count st event with
    | none => (st, some (ApiError.invalidParam "Event does not exist."))
    | some (PduCount.backfilled _) =>
        (st, some (ApiError.invalidParam "Read receipt is in backfilled timeline"))
    | some (PduCount.normal _) =>
        (private_read_set st room user (sid event), none)

/-- The ReadPrivate branch of create_receipt_route (lines 175-197 of
src/api/client_server/read_marker.rs): the position of the event is looked up
directly; a Backfilled position is rejected with InvalidParam before the marker
is touched; a Normal position stores the short event id through
private_read_set. -/
def create_receipt_private (st : ServiceState) (room user event : String)
    (sid : String → Nat) : ServiceState × Option ApiError :=
  match get_pdu_count st event with
  | none => (st, some (ApiError.invalidParam "Event does not exist."))
  | some (PduCount.backfilled _) =>
      (st, some (ApiError.invalidParam "Read receipt is in backfilled timeline"))
  | some (PduCount.normal _) =>
      (private_read_set st room user (sid event), none)

/-- Claim C10: at both public private-read-receipt interfaces, an event whose
stored position is Backfilled is rejected with InvalidParam "Read receipt is in
backfilled timeline" and the whole state — the private read marker included —
is left unchanged; an event with a Normal position is accepted and the private
read marker of (room, user) is set. -/
theorem private_receipt_backfilled_guard (st : ServiceState) (room user event : String)
    (sid : String → Nat) :
    (∀ n pdu, get_pdu st event = some pdu →
      get_pdu_count st event = some (PduCount.backfilled n) →
      set_read_marker_private st room user event sid
        = (st, some (ApiError.invalidParam "Read receipt is in backfilled timeline"))) ∧
    (∀ n, get_pdu_count st event = some (PduCount.backfilled n) →
      create_receipt_private st room user event sid
        = (st, some (ApiError.invalidParam "Read receipt is in backfilled timeline"))) ∧
    (∀ c pdu, get_pdu st event = some pdu →
      get_pdu_count st event = some (PduCount.normal c) →
      (set_read_marker_private st room user event sid).2 = none ∧
      alist_get (set_read_marker_private st room user event sid).1.privateRead (room, user)
        = some (sid event)) ∧
    (∀ c, get_pdu_count st event = some (PduCount.normal c) →
      (create_receipt_private st room user event sid).2 = none ∧
      alist_get (create_receipt_private st room user event sid).1.privateRead (room, user)
        = some (sid event)) := by
  refine ⟨?_, ?_, ?_, ?_⟩
  · intro n pdu hp hc
    unfold set_read_marker_private
    rw [hp, hc]
  · intro n hc
    unfold create_receipt_private
    rw [hc]
  · intro c pdu hp hc
    unfold set_read_marker_private
    rw [hp, hc]
    exact ⟨rfl, alist_get_insert_self _ _ _⟩
  · intro c hc
    unfold create_receipt_private
    rw [hc]
    exact ⟨rfl, alist_get_insert_self _ _ _⟩

/-- A second stored event sitting at a Backfilled position. -/
def pduC : PduEvent :=
  { pduA with event_id := "$c" }

/-- A room holding a live event at Normal(1) and a backfilled event at
Backfilled(5). -/
def stBack : ServiceState :=
  { stOne with
    timeline := [((1, PduCount.normal 1), pduA), ((1, PduCount.backfilled 5), pduC)]
    eventid_pduid := [("$a", (1, PduCount.normal 1)), ("$c", (1, PduCount.backfilled 5))] }

/-- Claim C10 witness: the statement evaluated on a concrete room — the
backfilled event is rejected by both routes with the exact InvalidParam error
and untouched state, the live event is accepted and sets the marker. -/
theorem private_receipt_backfilled_guard_witness :
    (set_read_marker_private stBack "!r" "@u:s" "$c" (fun _ => 9)
      = (stBack, some (ApiError.invalidParam "Read receipt is in backfilled timeline"))) ∧
    (create_receipt_private stBack "!r" "@u:s" "$c" (fun _ => 9)
      = (stBack, some (ApiError.invalidParam "Read receipt is in backfilled timeline"))) ∧
    ((set_read_marker_private stBack "!r" "@u:s" "$a" (fun _ => 9)).2 = none ∧
      alist_get (set_read_marker_private stBack "!r" "@u:s" "$a" (fun _ => 9)).1.privateRead
        ("!r", "@u:s") = some 9) ∧
    ((create_receipt_private stBack "!r" "@u:s" "$a" (fun _ => 9)).2 = none ∧
      alist_get (create_receipt_private stBack "!r" "@u:s" "$a" (fun _ => 9)).1.privateRead
        ("!r", "@u:s") = some 9) :=
  ⟨(private_receipt_backfilled_guard stBack "!r" "@u:s" "$c" (fun _ => 9)).1 5 pduC rfl rfl,
   (private_receipt_backfilled_guard stBack "!r" "@u:s" "$c" (fun _ => 9)).2.1 5 rfl,
   (private_receipt_backfilled_guard stBack "!r" "@u:s" "$a" (fun _ => 9)).2.2.1 1 pduA rfl rfl,
   (private_receipt_backfilled_guard stBack "!r" "@u:s" "$a" (fun _ => 9)).2.2.2 1 rfl⟩

/-! ## Claim C6: backfill_pdu allocates descending position keys
(lines 1183-1192 of src/service/rooms/timeline/mod.rs, next_count of
src/service/globals/data.rs) -/

/-- Big-endian base-256 digits of a number, `k` bytes wide. -/
def be_bytes : Nat → Nat → List Nat
  | 0, _ => []
  | (k + 1), n => n / 256 ^ k :: be_bytes k (n % 256 ^ k)

/-- `u64::to_be_bytes`. -/
def u64_be (n : Nat) : List Nat := be_bytes 8 (n % U64MOD)

/-- Lexicographic byte-string comparison, the iteration order of the ordered
pdu table (a strict prefix sorts first). -/
def bytes_lt : List Nat → List Nat → Bool
  | [], [] => false
  | [], _ :: _ => true
  | _ :: _, [] => false
  | a :: as, b :: bs => if a < b then true else if b < a then false else bytes_lt as bs

/-- A live position key (lines 297-299): short room id bytes, then the freshly
allocated counter bytes. -/
def normal_pdu_id (sroom count : Nat) : List Nat := u64_be sroom ++ u64_be count

/-- A backfill position key (lines 1185-1189): short room id bytes, eight zero
bytes, then (u64::MAX - counter) bytes; the checked subtraction of the
validated! macro fails when the counter exceeds u64::MAX. -/
def backfill_pdu_id (sroom count : Nat) : Option (List Nat) :=
  if count ≤ U64MAX then some (u64_be sroom ++ u64_be 0 ++ u64_be (U64MAX - count))
  else none

theorem bytes_lt_be_iff (k : Nat) : ∀ a b : Nat, a < 256 ^ k → b < 256 ^ k →
    (bytes_lt (be_bytes k a) (be_bytes k b) = true ↔ a < b) := by
  induction k with
  | zero =>
    intro a b ha hb
    interval_cases a
    interval_cases b
    simp [be_bytes, bytes_lt]
  | succ k ih =>
    intro a b ha hb
    have hm : 0 < 256 ^ k := Nat.pos_pow_of_pos k (by norm_num)
    simp only [be_bytes, bytes_lt]
    rcases Nat.lt_trichotomy (a / 256 ^ k) (b / 256 ^ k) with h | h | h
    · rw [if_pos h]
      simp only [true_iff]
      exact Nat.lt_of_div_lt_div h
    · rw [if_neg (by omega), if_neg (by omega)]
      rw [ih (a % 256 ^ k) (b % 256 ^ k) (Nat.mod_lt _ hm) (Nat.mod_lt _ hm)]
      have e1 : 256 ^ k * (b / 256 ^ k) + a % 256 ^ k = a := by
        rw [← h]
        exact Nat.div_add_mod a (256 ^ k)
      have e2 : 256 ^ k * (b / 256 ^ k) + b % 256 ^ k = b := Nat.div_add_mod b (256 ^ k)
      omega
    · rw [if_neg (by omega), if_pos h]
      constructor
      · intro hf
        cases hf
      · intro hab
        have hba := Nat.lt_of_div_lt_div h
        exact absurd hab (by omega)

theorem bytes_lt_u64_iff (a b : Nat) (ha : a < U64MOD) (hb : b < U64MOD) :
    bytes_lt (u64_be a) (u64_be b) = true ↔ a < b := by
  unfold u64_be
  rw [Nat.mod_eq_of_lt ha, Nat.mod_eq_of_lt hb]
  exact bytes_lt_be_iff 8 a b ha hb

theorem bytes_lt_strip_common (p : List Nat) : ∀ x y : List Nat,
    bytes_lt (p ++ x) (p ++ y) = bytes_lt x y := by
  induction p with
  | nil => intro x y; rfl
  | cons a rest ih =>
    intro x y
    simp only [List.cons_append, bytes_lt, Nat.lt_irrefl, if_false]
    exact ih x y

theorem be_bytes_length (k : Nat) : ∀ n : Nat, (be_bytes k n).length = k := by
  induction k with
  | zero => intro n; rfl
  | succ k ih =>
    intro n
    simp only [be_bytes, List.length_cons, ih]

theorem bytes_lt_append_of_lt : ∀ x y u v : List Nat, x.length = y.length →
    bytes_lt x y = true → bytes_lt (x ++ u) (y ++ v) = true := by
  intro x
  induction x with
  | nil =>
    intro y u v hlen h
    cases y with
    | nil => cases h
    | cons b bs => simp at hlen
  | cons a as ih =>
    intro y u v hlen h
    cases y with
    | nil => simp at hlen
    | cons b bs =>
      simp only [List.cons_append]
      simp only [bytes_lt] at h ⊢
      rcases Nat.lt_trichotomy a b with h1 | h1 | h1
      · rw [if_pos h1]
      · rw [if_neg (by omega), if_neg (by omega)] at h ⊢
        exact ih bs u v (by simpa using hlen) h
      · rw [if_neg (by omega), if_pos h1] at h
        cases h

theorem bytes_lt_irrefl : ∀ x : List Nat, bytes_lt x x = false := by
  intro x
  induction x with
  | nil => rfl
  | cons a as ih => simp only [bytes_lt, Nat.lt_irrefl, if_false, ih]

theorem bytes_lt_asymm : ∀ x y : List Nat, bytes_lt x y = true → bytes_lt y x = false := by
  intro x
  induction x with
  | nil =>
    intro y h
    cases y with
    | nil => cases h
    | cons b bs => rfl
  | cons a as ih =>
    intro y h
    cases y with
    | nil => cases h
    | cons b bs =>
      simp only [bytes_lt] at h ⊢
      rcases Nat.lt_trichotomy a b with h1 | h1 | h1
      · rw [if_neg (by omega), if_pos h1]
      · rw [if_neg (by omega), if_neg (by omega)] at h ⊢
        exact ih bs h
      · rw [if_neg (by omega), if_pos h1] at h
        cases h

/-- Claim C6: every event prepended by backfill_pdu receives the storage key
whose raw counter component is u64::MAX minus the freshly allocated global
counter value (eight zero bytes in the middle); within one batch of
consecutively allocated counters the keys are strictly decreasing in the byte
order of the table; every such key sorts strictly before every live key of the
room (counter at least 1) and before every earlier backfilled key of the room;
and in any list sorted ascending by the byte order — the order an ascending
iteration yields — a smaller key comes strictly before a larger one, so the
backfilled events precede the previous earliest event. -/
theorem backfill_pdu_descending_keys (sroom c0 k : Nat) (hk : c0 + k ≤ U64MAX) :
    (∀ i, i < k → backfill_pdu_id sroom (c0 + i + 1)
        = some (u64_be sroom ++ u64_be 0 ++ u64_be (U64MAX - (c0 + i + 1)))) ∧
    (∀ i j ki kj, i < j → j < k →
      backfill_pdu_id sroom (c0 + i + 1) = some ki →
      backfill_pdu_id sroom (c0 + j + 1) = some kj →
      bytes_lt kj ki = true) ∧
    (∀ m, 1 ≤ m → m ≤ U64MAX → ∀ i ki, i < k →
      backfill_pdu_id sroom (c0 + i + 1) = some ki →
      bytes_lt ki (normal_pdu_id sroom m) = true) ∧
    (∀ cOld kOld i ki, 1 ≤ cOld → cOld ≤ c0 → i < k →
      backfill_pdu_id sroom cOld = some kOld →
      backfill_pdu_id sroom (c0 + i + 1) = some ki →
      bytes_lt ki kOld = true) ∧
    (∀ (l : List (List Nat × PduEvent)),
      List.Pairwise (fun x y => bytes_lt x.1 y.1 = true) l →
      ∀ i j (hi : i < l.length) (hj : j < l.length),
        bytes_lt (l.get ⟨i, hi⟩).1 (l.get ⟨j, hj⟩).1 = true → i < j) := by
  have hbound : ∀ i, i < k → c0 + i + 1 ≤ U64MAX := by
    intro i hi
    omega
  have hsome : ∀ i, i < k → backfill_pdu_id sroom (c0 + i + 1)
      = some (u64_be sroom ++ u64_be 0 ++ u64_be (U64MAX - (c0 + i + 1))) := by
    intro i hi
    unfold backfill_pdu_id
    rw [if_pos (hbound i hi)]
  have htail : ∀ x y : Nat, x < U64MOD → y < U64MOD → x < y →
      bytes_lt (u64_be sroom ++ u64_be 0 ++ u64_be x) (u64_be sroom ++ u64_be 0 ++ u64_be y)
        = true := by
    intro x y hx hy hxy
    rw [List.append_assoc, List.append_assoc, bytes_lt_strip_common, bytes_lt_strip_common]
    exact (bytes_lt_u64_iff x y hx hy).mpr hxy
  refine ⟨hsome, ?_, ?_, ?_, ?_⟩
  · intro i j ki kj hij hjk hki hkj
    rw [hsome i (Nat.lt_trans hij hjk)] at hki
    rw [hsome j hjk] at hkj
    injection hki with hki
    injection hkj with hkj
    subst hki
    subst hkj
    apply htail
    · show U64MAX - (c0 + j + 1) < U64MOD
      unfold U64MAX U64MOD
      omega
    · show U64MAX - (c0 + i + 1) < U64MOD
      unfold U64MAX U64MOD
      omega
    · have hbi := hbound i (Nat.lt_trans hij hjk)
      have hbj := hbound j hjk
      omega
  · intro m hm1 hm2 i ki hi hki
    rw [hsome i hi] at hki
    injection hki with hki
    subst hki
    unfold normal_pdu_id
    rw [List.append_assoc, bytes_lt_strip_common]
    rw [show u64_be m = u64_be m ++ [] from (List.append_nil _).symm]
    apply bytes_lt_append_of_lt
    · unfold u64_be
      rw [be_bytes_length, be_bytes_length]
    · apply (bytes_lt_u64_iff 0 m (by unfold U64MOD; omega) (by unfold U64MAX U64MOD at *; omega)).mpr
      omega
  · intro cOld kOld i ki h1 h2 hi hkOld hki
    unfold backfill_pdu_id at hkOld
    rw [if_pos (by omega)] at hkOld
    rw [hsome i hi] at hki
    injection hkOld with hkOld
    injection hki with hki
    subst hkOld
    subst hki
    apply htail
    · show U64MAX - (c0 + i + 1) < U64MOD
      unfold U64MAX U64MOD
      omega
    · show U64MAX - cOld < U64MOD
      unfold U64MAX U64MOD
      omega
    · have hbi := hbound i hi
      omega
  · intro l hsort i j hi hj hlt
    rcases Nat.lt_trichotomy i j with h | h | h
    · exact h
    · subst h
      rw [bytes_lt_irrefl] at hlt
      cases hlt
    · have := (List.pairwise_iff_getElem.mp hsort) j i hj hi h
      have hasymm := bytes_lt_asymm _ _ this
      rw [List.get_eq_getElem, List.get_eq_getElem] at hlt
      rw [hlt] at hasymm
      cases hasymm

/-- Claim C6 witness: with the counter at 5, one batch of two backfilled events
receives counters 6 and 7, the second key sorts strictly below the first, and
both sort below the live key of counter 1. -/
theorem backfill_pdu_descending_keys_witness :
    bytes_lt ((backfill_pdu_id 1 7).getD []) ((backfill_pdu_id 1 6).getD []) = true ∧
    bytes_lt ((backfill_pdu_id 1 6).getD []) (normal_pdu_id 1 1) = true :=
  ⟨(backfill_pdu_descending_keys 1 5 2 (by decide)).2.1 0 1
      ((backfill_pdu_id 1 6).getD []) ((backfill_pdu_id 1 7).getD [])
      (by decide) (by decide) rfl rfl,
   (backfill_pdu_descending_keys 1 5 2 (by decide)).2.2.1 1 (by decide) (by decide) 0
      ((backfill_pdu_id 1 6).getD []) (by decide) rfl⟩

end Conduwuit
